import Mathlib

set_option maxRecDepth 8192
set_option exponentiation.threshold 2048

/-!
Verification of the Field Reconciliation Engine of the invoice / purchase-order
reconciliation repository (source: `src/compare_utils.py`).

The Python module is shallowly embedded below.  Strings are Lean `String`s
(lists of characters); raw records (`Dict[str, Any]`) become association lists
`List (String × Option String)` where `none` models Python `None`; the
canonical record (a Python `dict` with exactly the five canonical keys) becomes
an association list `List (String × String)`; Python `float` is an IEEE-754
binary64 double, modelled by the type `PFloat` (a finite double carries its
exact rational value; `inf` / `-inf` / `nan` are the special values) with
correct rounding to nearest, ties to even, in parsing and in every arithmetic
operation.  The fixed regular expressions of the module
are embedded as executable character-list scanners implementing the exact
left-most / greedy / backtracking semantics of Python `re` on the pattern in
question (ASCII character classes).  All definitions are executable by the
kernel (structural recursion, or recursion on an explicit fuel argument that
is always sufficient), so that theorems about concrete inputs can be settled
by `decide` / `rfl`.
-/

namespace InvoiceVerify

/-! ## Basic string machinery (Python `str` helpers and character classes) -/

/-- Python whitespace characters recognised by `\s`, `str.strip`,
`str.split` (ASCII range). -/
def pyIsWS (c : Char) : Bool :=
  c == ' ' || c == '\t' || c == '\n' || c == '\r' || c == '\x0b' || c == '\x0c'

/-- ASCII decimal digit, Python `\d` (ASCII model). -/
def isDigitC (c : Char) : Bool := c.isDigit

/-- Uppercase ASCII letter, the class `[A-Z]` compiled without `re.I`. -/
def isUpperAZ (c : Char) : Bool := 'A' ≤ c && c ≤ 'Z'

/-- ASCII letter, the class `[A-Z]` compiled with `re.I`. -/
def isAlphaC (c : Char) : Bool := c.isAlpha

/-- Python word character `\w` (ASCII model): letter, digit or underscore. -/
def isWordC (c : Char) : Bool := c.isAlphanum || c == '_'

/-- Drop trailing elements satisfying `p` (helper for `str.rstrip`). -/
def rdropWhile (p : Char → Bool) (cs : List Char) : List Char :=
  (cs.reverse.dropWhile p).reverse

/-- Python `str.strip()` on a character list. -/
def stripL (cs : List Char) : List Char :=
  rdropWhile pyIsWS (cs.dropWhile pyIsWS)

/-- Python `str.strip()`. -/
def strip (s : String) : String := ⟨stripL s.data⟩

/-- Python `str.rstrip()`. -/
def rstrip (s : String) : String := ⟨rdropWhile pyIsWS s.data⟩

/-- Python `str.lower()` (ASCII model). -/
def lowerStr (s : String) : String := ⟨s.data.map Char.toLower⟩

/-- Replace every maximal run of whitespace by a single space
(the effect of `re.sub(r"\s+", " ", s)`). -/
def collapseWS : List Char → List Char
  | [] => []
  | [c] => if pyIsWS c then [' '] else [c]
  | c :: d :: rest =>
    if pyIsWS c then
      if pyIsWS d then collapseWS (d :: rest)
      else ' ' :: collapseWS (d :: rest)
    else c :: collapseWS (d :: rest)

/-- `_clean` of the source: `re.sub(r"\s+", " ", s).strip()`. -/
def clean (s : String) : String := ⟨stripL (collapseWS s.data)⟩

/-- Python slicing `s[:n]` (by code points). -/
def strTake (n : Nat) (s : String) : String := ⟨s.data.take n⟩

/-- Case-insensitive literal-word match: if `w` (given lowercase) is a
case-insensitive prefix of `s`, return the rest of `s`. -/
def ciMatch : List Char → List Char → Option (List Char)
  | [], s => some s
  | _ :: _, [] => none
  | c :: cs, d :: ds => if c.toLower == d.toLower then ciMatch cs ds else none

/-- Python non-overlapping `str.replace(old, "")` (first argument is `old`,
assumed non-empty); `fuel` bounds the scan and is always instantiated with
the length of the scanned list plus one. -/
def removeSubFuel (pat : List Char) : Nat → List Char → List Char
  | 0, _ => []
  | _ + 1, [] => []
  | fuel + 1, c :: rest =>
    if pat.isPrefixOf (c :: rest) then
      removeSubFuel pat fuel ((c :: rest).drop pat.length)
    else
      c :: removeSubFuel pat fuel rest

/-- Python `str.replace(old, "")`. -/
def removeSub (pat : String) (s : String) : String :=
  ⟨removeSubFuel pat.data (s.data.length + 1) s.data⟩

/-- Python `str.splitlines()` (ASCII model: `\n`, `\r\n`, `\r`, `\x0b`, `\x0c`
are line boundaries; no trailing empty line for a terminal boundary). -/
def splitlinesAux (cur : List Char) : List Char → List (List Char)
  | [] => if cur.isEmpty then [] else [cur.reverse]
  | '\r' :: '\n' :: rest => cur.reverse :: splitlinesAux [] rest
  | c :: rest =>
    if c == '\n' || c == '\r' || c == '\x0b' || c == '\x0c' then
      cur.reverse :: splitlinesAux [] rest
    else
      splitlinesAux (c :: cur) rest

/-- Python `str.splitlines()`. -/
def pySplitlines (s : String) : List String :=
  (splitlinesAux [] s.data).map (fun l => ⟨l⟩)

/-! ## Amounts: Python `float(...)` and `f"{val:.2f}"`

The source parses decimal strings with `float` and re-renders with two
fractional digits.  `pyParse` reads the decimal literal exactly; Python's
`float` then denotes the nearest binary64 double, modelled by composing
`pyParse` with `roundDouble` below.  The strings fed to the parser contain
only digits and periods (they have been filtered by
`re.sub(r"[^0-9\.]+", "", s)`), for which Python's `float` accepts exactly
one optional period with at least one digit overall. -/

/-- Value of a list of decimal digit characters. -/
def digitsVal (cs : List Char) : Nat :=
  cs.foldl (fun acc c => acc * 10 + (c.toNat - 48)) 0

/-- The exact decimal value of a digits-and-periods string: `some` rational,
or `none` when Python's `float` would raise `ValueError`.  The value of
`ip.fr` is `(ip * 10^|fr| + fr) / 10^|fr|`, built with the kernel-reducible
core constructor `mkRat`. -/
def pyParse (cs : List Char) : Option ℚ :=
  match cs.drop (cs.takeWhile isDigitC).length with
  | [] =>
    if (cs.takeWhile isDigitC).isEmpty then none
    else some (mkRat (Int.ofNat (digitsVal (cs.takeWhile isDigitC))) 1)
  | '.' :: fr =>
    if fr.all isDigitC && !((cs.takeWhile isDigitC).isEmpty && fr.isEmpty) then
      some (mkRat
        (Int.ofNat (digitsVal (cs.takeWhile isDigitC) * 10 ^ fr.length + digitsVal fr))
        (10 ^ fr.length))
    else none
  | _ => none

/-- Exact difference of two rationals through the core constructor (equal to
`a - b`, but reducible by the kernel on concrete inputs). -/
def ratSub (a b : ℚ) : ℚ :=
  mkRat (a.num * (b.den : ℤ) - b.num * (a.den : ℤ)) (a.den * b.den)

/-! ## IEEE-754 binary64 doubles

Python's `float` is an IEEE-754 binary64 double.  A finite double is
represented below by its exact rational value (a dyadic rational with a
53-bit significand); `inf`, `ninf` and `nan` are the special values.
`roundDouble` is correct rounding to nearest, ties to even, with gradual
underflow to the subnormal quantum `2 ^ (-1074)` and overflow to infinity -
the rounding performed both by `float(str)` (CPython parses with a
correctly-rounded `strtod`) and by each arithmetic operation. -/

/-- A binary64 double: exact value of a finite double, or a special value. -/
inductive PFloat where
  | fin (q : ℚ)
  | inf
  | ninf
  | nan
deriving DecidableEq

/-- Fueled binary length (`fuel ≥ n` suffices, so `bitlen` passes `n`). -/
def bitlenF : Nat → Nat → Nat
  | 0, _ => 0
  | fuel + 1, n => if n = 0 then 0 else bitlenF fuel (n / 2) + 1

/-- Number of binary digits of `n`: `2 ^ (bitlen n - 1) ≤ n < 2 ^ bitlen n`
for positive `n`. -/
def bitlen (n : Nat) : Nat := bitlenF n n

/-- Whether `2 ^ e ≤ num / den` (for positive `num`, `den`). -/
def powLe (e : Int) (num den : Nat) : Bool :=
  if 0 ≤ e then den * 2 ^ e.toNat ≤ num
  else den ≤ num * 2 ^ (-e).toNat

/-- `⌊log₂ (num / den)⌋` for positive `num`, `den`: the bit-length
difference is an overestimate by at most one, corrected by one comparison. -/
def floorLog2 (num den : Nat) : Int :=
  if powLe ((bitlen num : Int) - (bitlen den : Int)) num den then
    (bitlen num : Int) - (bitlen den : Int)
  else (bitlen num : Int) - (bitlen den : Int) - 1

/-- Round `N / D` to an integer, half to even (`D > 0`). -/
def roundScaled (N D : Nat) : Nat :=
  if D < 2 * (N % D) then N / D + 1
  else if 2 * (N % D) < D then N / D
  else if N / D % 2 = 0 then N / D else N / D + 1

/-- The binary64 quantum exponent for a positive value whose floor-log2 is
`e`: bit 53 sits at `2 ^ (e - 52)`, floored at the subnormal quantum
`2 ^ (-1074)`. -/
def quantExp (e : Int) : Int := if e - 52 ≤ -1074 then -1074 else e - 52

/-- The rational `n * 2 ^ qe`. -/
def dyadic (n : Nat) (qe : Int) : ℚ :=
  if qe ≤ 0 then mkRat (Int.ofNat n) (2 ^ (-qe).toNat)
  else mkRat (Int.ofNat (n * 2 ^ qe.toNat)) 1

/-- The largest finite binary64 value, `(2 ^ 53 - 1) * 2 ^ 971`. -/
def maxFiniteQ : ℚ := mkRat (Int.ofNat ((2 ^ 53 - 1) * 2 ^ 971)) 1

/-- Significand of `num / den` scaled to its binary64 quantum, rounded half
to even. -/
def roundPosN (num den : Nat) : Nat :=
  if quantExp (floorLog2 num den) ≤ 0 then
    roundScaled (num * 2 ^ (-(quantExp (floorLog2 num den))).toNat) den
  else
    roundScaled num (den * 2 ^ (quantExp (floorLog2 num den)).toNat)

/-- The binary64 rounding of the positive rational `num / den`, as an exact
rational (before the overflow check). -/
def roundPosQ (num den : Nat) : ℚ :=
  dyadic (roundPosN num den) (quantExp (floorLog2 num den))

/-- Round a positive rational `num / den` to the nearest binary64 value,
ties to even, overflowing to `inf`. -/
def roundPos (num den : Nat) : PFloat :=
  if maxFiniteQ < roundPosQ num den then PFloat.inf
  else PFloat.fin (roundPosQ num den)

/-- Negation on doubles. -/
def pneg : PFloat → PFloat
  | .fin q => .fin (mkRat (-q.num) q.den)
  | .inf => .ninf
  | .ninf => .inf
  | .nan => .nan

/-- Round an arbitrary rational to the nearest binary64 value. -/
def roundDouble (q : ℚ) : PFloat :=
  if q.num = 0 then .fin (mkRat 0 1)
  else if q.num < 0 then pneg (roundPos q.num.natAbs q.den)
  else roundPos q.num.natAbs q.den

/-- Subtraction on doubles: the exact difference of finite values rounded
back to binary64, and the IEEE special-value rules otherwise
(`inf - inf = nan`). -/
def psub : PFloat → PFloat → PFloat
  | .fin a, .fin b => roundDouble (ratSub a b)
  | .fin _, .inf => .ninf
  | .fin _, .ninf => .inf
  | .inf, .fin _ => .inf
  | .ninf, .fin _ => .ninf
  | .inf, .inf => .nan
  | .inf, .ninf => .inf
  | .ninf, .inf => .ninf
  | .ninf, .ninf => .nan
  | .nan, _ => .nan
  | _, .nan => .nan

/-- Absolute value on doubles. -/
def pabs : PFloat → PFloat
  | .fin q => .fin |q|
  | .nan => .nan
  | _ => .inf

/-- The `<` comparison on doubles: by value on finite doubles (the exact
rational order agrees with the IEEE order there), `false` whenever a `nan`
is involved. -/
def plt : PFloat → PFloat → Bool
  | .fin a, .fin b => decide (a < b)
  | .fin _, .inf => true
  | .ninf, .fin _ => true
  | .ninf, .inf => true
  | _, _ => false

/-- The Python literal `0.01`: the binary64 value nearest `1/100` (slightly
above it). -/
def double001 : PFloat := roundDouble (mkRat 1 100)

/-- Python `float(s)` for the strings that reach it in this program: the
special strings that `f"{val:.2f}"` renders for non-finite doubles, or a
digits-and-periods literal read exactly and rounded to the nearest binary64
value (string overflow yields `inf`, not an exception). -/
def pyFloat (s : String) : Option PFloat :=
  if s = "inf" then some PFloat.inf
  else if s = "-inf" then some PFloat.ninf
  else if s = "nan" then some PFloat.nan
  else (pyParse s.data).map roundDouble

/-- Decimal digit character for `n < 10`. -/
def digitChar : Nat → Char
  | 0 => '0' | 1 => '1' | 2 => '2' | 3 => '3' | 4 => '4'
  | 5 => '5' | 6 => '6' | 7 => '7' | 8 => '8' | _ => '9'

/-- Decimal digit characters of `n` (most significant first); the fuel is
always at least `n + 1`, which suffices. -/
def natDigitsAux : Nat → Nat → List Char
  | 0, _ => []
  | fuel + 1, n =>
    if n < 10 then [digitChar n]
    else natDigitsAux fuel (n / 10) ++ [digitChar (n % 10)]

/-- Decimal rendering of a natural number. -/
def natDigits (n : Nat) : List Char := natDigitsAux (n + 1) n

/-- Round-half-even to an integer (the rounding of `f"{val:.2f}"` on an
exact decimal value).  The fractional part `q - ⌊q⌋` is compared with `1/2`
through the equivalent kernel-reducible comparison of `2q` with `2⌊q⌋+1`. -/
def roundHalfEven (q : ℚ) : ℤ :=
  let f : ℤ := ⌊q⌋
  let twoQ : ℚ := mkRat (2 * q.num) q.den
  let mid : ℚ := ((2 * f + 1 : ℤ) : ℚ)
  if twoQ < mid then f
  else if mid < twoQ then f + 1
  else if f % 2 = 0 then f else f + 1

/-- Python `f"{val:.2f}"` for the non-negative finite doubles arising here,
applied to the double's exact value `q` (`q * 100` built with the core
constructor).  CPython's formatting is correctly rounded, half to even, on
the binary value of the double. -/
def renderFin (q : ℚ) : String :=
  let n : Nat := (roundHalfEven (mkRat (100 * q.num) q.den)).toNat
  ⟨natDigits (n / 100) ++ '.' :: [digitChar (n % 100 / 10), digitChar (n % 10)]⟩

/-- Python `f"{val:.2f}"` on a double. -/
def renderAmount : PFloat → String
  | .fin q => renderFin q
  | .inf => "inf"
  | .ninf => "-inf"
  | .nan => "nan"

/-- `_normalize_amount` of the source: strip thousands separators and literal
"USD"/"usd" tokens, keep only digits and periods, parse with `float` (a
binary64 double, `inf` on overflow), re-render with two fractional digits;
unparseable input yields the empty string. -/
def normalize_amount (text : String) : String :=
  if text == "" then ""
  else
    match pyFloat ⟨(removeSub "usd" (removeSub "USD" (removeSub "," text))).data.filter
        (fun c => isDigitC c || c == '.')⟩ with
    | some v => renderAmount v
    | none => ""

/-! ## Embedded regular expressions

Each fixed pattern of `compare_utils.py` is embedded as a scanner on
character lists implementing Python `re` semantics for that pattern:
left-most match, alternatives in source order, greedy quantifiers with
backtracking where the pattern requires it. -/

/-- Word boundary `\b` before a word character, given the previous character
(`none` at the start of the string). -/
def bdry (prev : Option Char) : Bool :=
  match prev with
  | none => true
  | some c => !isWordC c

/-- Word boundary `\b` after a word character, given the rest of the string. -/
def bdryAfter : List Char → Bool
  | [] => true
  | c :: _ => !isWordC c

/-- Fullmatch of `\s*(vendor|seller)\s*:?\s*` (re.I): the label-only vendor
values discarded by the sanitation step. -/
def labelOnly (s : String) : Bool :=
  let t := s.data.dropWhile pyIsWS
  match (ciMatch "vendor".data t).orElse (fun _ => ciMatch "seller".data t) with
  | some r =>
    let r1 := r.dropWhile pyIsWS
    let r2 := match r1 with
      | ':' :: r3 => r3
      | _ => r1
    (r2.dropWhile pyIsWS).isEmpty
  | none => false

/-- Match of `_id_core_re = (?:[A-Z]{2,}-)?(\d{6,})` anchored at the current
position, via its first branch (letter prefix, hyphen, at least six digits);
returns group 1. -/
def idCoreAt (s : List Char) : Option (List Char) :=
  if (s.takeWhile isUpperAZ).length ≥ 2 then
    match s.drop (s.takeWhile isUpperAZ).length with
    | '-' :: t =>
      if (t.takeWhile isDigitC).length ≥ 6 then some (t.takeWhile isDigitC) else none
    | _ => none
  else none

/-- Match of `(\d{6,})` anchored at the current position (the optional prefix
of `_id_core_re` skipped); returns group 1. -/
def idDigitsAt (s : List Char) : Option (List Char) :=
  if (s.takeWhile isDigitC).length ≥ 6 then some (s.takeWhile isDigitC) else none

/-- `_id_core_re.search`: left-most match, prefixed branch preferred at each
position, greedy digit run as group 1. -/
def idCoreSearchAux : List Char → Option (List Char)
  | [] => none
  | c :: rest =>
    match idCoreAt (c :: rest) with
    | some ds => some ds
    | none =>
      match idDigitsAt (c :: rest) with
      | some ds => some ds
      | none => idCoreSearchAux rest

/-- `_id_core_re.search(s)`, returning group 1 of the match. -/
def idCoreSearch (s : String) : Option String :=
  (idCoreSearchAux s.data).map (fun l => ⟨l⟩)

/-- Match of `[A-Z]{2,}-\d{6,}` (re.I) anchored at the current position. -/
def azHyphenAt (s : List Char) : Bool :=
  let letters := s.takeWhile isAlphaC
  letters.length ≥ 2 &&
    (match s.drop letters.length with
     | '-' :: t => (t.takeWhile isDigitC).length ≥ 6
     | _ => false)

/-- `re.search(r"[A-Z]{2,}-\d{6,}", s, re.I)` as a Boolean. -/
def azHyphenSearch : List Char → Bool
  | [] => false
  | c :: rest => azHyphenAt (c :: rest) || azHyphenSearch rest

/-- `re.search(r"\d{n,}", s)` as a Boolean: some position starts a run of at
least `n` digits. -/
def digitRunSearch (n : Nat) : List Char → Bool
  | [] => false
  | c :: rest => ((c :: rest).takeWhile isDigitC).length ≥ n || digitRunSearch n rest

/-- The identifier sanity check of `_normalize_record` (line 81):
`_id_core_re.search(v) or re.search("[A-Z]{2,}-\d{6,}", v, re.I) or
re.search("\d{8,}", v)`. -/
def idShapeOk (s : String) : Bool :=
  (idCoreSearchAux s.data).isSome || azHyphenSearch s.data || digitRunSearch 8 s.data

/-- First alternative of `_date_re`: one or two digits, a dash-or-slash
separator, one or two digits, a separator, two to four digits, all between
word boundaries; anchored at the current position; returns the match
length. -/
def dateAltA (prev : Option Char) (s : List Char) : Option Nat :=
  if !bdry prev then none
  else
    let r1 := (s.takeWhile isDigitC).length
    if r1 = 0 || r1 > 2 then none
    else
      match s.drop r1 with
      | sep1 :: t1 =>
        if sep1 == '-' || sep1 == '/' then
          let r2 := (t1.takeWhile isDigitC).length
          if r2 = 0 || r2 > 2 then none
          else
            match t1.drop r2 with
            | sep2 :: t2 =>
              if sep2 == '-' || sep2 == '/' then
                let r3 := (t2.takeWhile isDigitC).length
                if 2 ≤ r3 && r3 ≤ 4 && bdryAfter (t2.drop r3) then
                  some (r1 + 1 + r2 + 1 + r3)
                else none
              else none
            | [] => none
        else none
      | [] => none

/-- Second alternative of `_date_re`: four digits, a dash-or-slash
separator, one or two digits, a separator, one or two digits, all between
word boundaries. -/
def dateAltB (prev : Option Char) (s : List Char) : Option Nat :=
  if !bdry prev then none
  else
    let r1 := (s.takeWhile isDigitC).length
    if r1 ≠ 4 then none
    else
      match s.drop 4 with
      | sep1 :: t1 =>
        if sep1 == '-' || sep1 == '/' then
          let r2 := (t1.takeWhile isDigitC).length
          if r2 = 0 || r2 > 2 then none
          else
            match t1.drop r2 with
            | sep2 :: t2 =>
              if sep2 == '-' || sep2 == '/' then
                let r3 := (t2.takeWhile isDigitC).length
                if 1 ≤ r3 && r3 ≤ 2 && bdryAfter (t2.drop r3) then
                  some (4 + 1 + r2 + 1 + r3)
                else none
              else none
            | [] => none
        else none
      | [] => none

/-- `_date_re` anchored at a position: first alternative preferred. -/
def dateAt (prev : Option Char) (s : List Char) : Option Nat :=
  (dateAltA prev s).orElse (fun _ => dateAltB prev s)

/-- `_date_re.search`: left-most match, returning group 0. -/
def dateSearchAux (prev : Option Char) : List Char → Option (List Char)
  | [] => none
  | c :: rest =>
    match dateAt prev (c :: rest) with
    | some len => some ((c :: rest).take len)
    | none => dateSearchAux (some c) rest

/-- `_date_re.search(s)`, group 0 of the match. -/
def dateSearch (s : String) : Option String :=
  (dateSearchAux none s.data).map (fun l => ⟨l⟩)

/-- Month-name alternatives of `_month_re`, in source order. -/
def monthAlts : List (List Char) :=
  ["jan".data, "feb".data, "mar".data, "apr".data, "may".data, "jun".data,
   "jul".data, "aug".data, "sep".data, "sept".data, "oct".data, "nov".data,
   "dec".data]

/-- Continuation of `_month_re` after the month-name alternative:
`[a-z]*\s+\d{1,2},\s+\d{4}` (re.I); returns the consumed length. -/
def monthTail (t : List Char) : Option Nat :=
  let lets := (t.takeWhile isAlphaC).length
  let t1 := t.drop lets
  let w1 := (t1.takeWhile pyIsWS).length
  if w1 = 0 then none
  else
    let t2 := t1.drop w1
    let d1 := (t2.takeWhile isDigitC).length
    if d1 = 0 || d1 > 2 then none
    else
      match t2.drop d1 with
      | ',' :: t3 =>
        let w2 := (t3.takeWhile pyIsWS).length
        if w2 = 0 then none
        else
          let t4 := t3.drop w2
          if (t4.takeWhile isDigitC).length ≥ 4 then
            some (lets + w1 + d1 + 1 + w2 + 4)
          else none
      | _ => none

/-- `_month_re` anchored at a position: alternatives in source order, each
with the common continuation; returns the match length. -/
def monthAt (s : List Char) : Option Nat :=
  monthAlts.findSome? (fun alt =>
    match ciMatch alt s with
    | some t => (monthTail t).map (fun n => alt.length + n)
    | none => none)

/-- `_month_re.search`: left-most match, group 0. -/
def monthSearchAux : List Char → Option (List Char)
  | [] => none
  | c :: rest =>
    match monthAt (c :: rest) with
    | some len => some ((c :: rest).take len)
    | none => monthSearchAux rest

/-- `_month_re.search(s)`, group 0 of the match. -/
def monthSearch (s : String) : Option String :=
  (monthSearchAux s.data).map (fun l => ⟨l⟩)

/-- Comma groups `(?:,[0-9]{3})*` of `_money_re`: number of greedy
repetitions available at the current position. -/
def commaGroups : List Char → Nat
  | ',' :: a :: b :: c :: rest =>
    if isDigitC a && isDigitC b && isDigitC c then 1 + commaGroups rest else 0
  | _ => 0

/-- Backtracking over the star count `j` (tried from the maximum down, as the
greedy star does): succeed when `\.[0-9]{2}` matches after `j` comma groups;
returns the consumed length from `t`. -/
def tryDotFrom (t : List Char) : Nat → Option Nat
  | 0 =>
    match t with
    | '.' :: a :: b :: _ => if isDigitC a && isDigitC b then some 3 else none
    | _ => none
  | j + 1 =>
    match t.drop (4 * (j + 1)) with
    | '.' :: a :: b :: _ =>
      if isDigitC a && isDigitC b then some (4 * (j + 1) + 3) else tryDotFrom t j
    | _ => tryDotFrom t j

/-- Group 2 of `_money_re`,
`[0-9]{1,3}(?:,[0-9]{3})*(?:\.[0-9]{2})|[0-9]+\.[0-9]{2}`, anchored at the
current position; returns the match length (first alternative preferred). -/
def moneyNumAt (s : List Char) : Option Nat :=
  let k := (s.takeWhile isDigitC).length
  let alt1 : Option Nat :=
    if 1 ≤ k && k ≤ 3 then
      let t := s.drop k
      (tryDotFrom t (commaGroups t)).map (fun n => k + n)
    else none
  match alt1 with
  | some n => some n
  | none =>
    if k ≥ 1 then
      match s.drop k with
      | '.' :: a :: b :: _ => if isDigitC a && isDigitC b then some (k + 3) else none
      | _ => none
    else none

/-- The options of a single optional character (`\s?`, `\$?`): consume one
(preferred, greedy) or zero characters. -/
def opt1 (p : Char → Bool) (t : List Char) : List Nat :=
  match t with
  | c :: _ => if p c then [1, 0] else [0]
  | [] => [0]

/-- `\s?\$?\s?` followed by group 2 of `_money_re`; returns total consumed
length and group 2. -/
def moneyTail (t : List Char) : Option (Nat × List Char) :=
  (opt1 pyIsWS t).findSome? (fun a =>
    let t1 := t.drop a
    (opt1 (fun c => c == '$') t1).findSome? (fun b =>
      let t2 := t1.drop b
      (opt1 pyIsWS t2).findSome? (fun c =>
        let t3 := t2.drop c
        (moneyNumAt t3).map (fun n => (a + b + c + n, t3.take n)))))

/-- `_money_re` anchored at a position: the optional currency-code group
`([A-Z]{3})?` is tried first (greedy), then skipped; returns the match
length and the pair (group 1, group 2) as `findall` reports it. -/
def moneyAt (s : List Char) : Option (Nat × String × String) :=
  let noCode : Option (Nat × String × String) :=
    (moneyTail s).map (fun p => (p.1, "", ⟨p.2⟩))
  if s.length ≥ 3 && (s.take 3).all isUpperAZ then
    match moneyTail (s.drop 3) with
    | some p => some (3 + p.1, ⟨s.take 3⟩, ⟨p.2⟩)
    | none => noCode
  else noCode

/-- `_money_re.findall`: repeated left-most search, resuming after each
match; the fuel is always instantiated with length + 1, which suffices since
every match is non-empty. -/
def moneyFindAllFuel : Nat → List Char → List (String × String)
  | 0, _ => []
  | _ + 1, [] => []
  | fuel + 1, c :: rest =>
    match moneyAt (c :: rest) with
    | some (len, g1, g2) => (g1, g2) :: moneyFindAllFuel fuel ((c :: rest).drop len)
    | none => moneyFindAllFuel fuel rest

/-- `_money_re.findall(s)`. -/
def moneyFindAll (s : String) : List (String × String) :=
  moneyFindAllFuel (s.data.length + 1) s.data

/-- Characters of the identifier class `[A-Z0-9\-]` under re.I. -/
def poClassC (c : Char) : Bool := isAlphaC c || isDigitC c || c == '-'

/-- `_po_re = PO\s*#?\s*([A-Z0-9\-]+)` (re.I) anchored at a position;
returns group 1. -/
def poAt (s : List Char) : Option (List Char) :=
  match ciMatch "po".data s with
  | some t =>
    let t1 := t.dropWhile pyIsWS
    let t2 := match t1 with
      | '#' :: r => r.dropWhile pyIsWS
      | _ => t1
    let cls := t2.takeWhile poClassC
    if cls.isEmpty then none else some cls
  | none => none

/-- `_po_re.search(s)`, group 1. -/
def poSearchAux : List Char → Option (List Char)
  | [] => none
  | c :: rest =>
    match poAt (c :: rest) with
    | some g => some g
    | none => poSearchAux rest

/-- `_inv_re = Invoice\s*Number[:\s]+([A-Z0-9\-]+)` (re.I) anchored at a
position; returns group 1. -/
def invAt (s : List Char) : Option (List Char) :=
  match ciMatch "invoice".data s with
  | some t =>
    let t1 := t.dropWhile pyIsWS
    match ciMatch "number".data t1 with
    | some t2 =>
      let r := (t2.takeWhile (fun c => c == ':' || pyIsWS c)).length
      if r = 0 then none
      else
        let cls := (t2.drop r).takeWhile poClassC
        if cls.isEmpty then none else some cls
    | none => none
  | none => none

/-- `_inv_re.search(s)`, group 1. -/
def invSearchAux : List Char → Option (List Char)
  | [] => none
  | c :: rest =>
    match invAt (c :: rest) with
    | some g => some g
    | none => invSearchAux rest

/-- Backtracking over the greedy run of `[:\s]+` (at least one character,
longest first) followed by `(.+)`: the group must start with a character
other than a newline; returns group 1 (to the end of the line). -/
def vendorContent (r : List Char) : Nat → Option (List Char)
  | 0 => none
  | k + 1 =>
    match r.drop (k + 1) with
    | c :: _ =>
      if c == '\n' then vendorContent r k
      else some ((r.drop (k + 1)).takeWhile (fun d => !(d == '\n')))
    | [] => vendorContent r k

/-- `_vendor_re = Vendor[:\s]+(.+)` (re.I) anchored at a position;
returns group 1. -/
def vendorAt (s : List Char) : Option (List Char) :=
  match ciMatch "vendor".data s with
  | some t =>
    let r := (t.takeWhile (fun c => c == ':' || pyIsWS c)).length
    if r = 0 then none else vendorContent t r
  | none => none

/-- `_vendor_re.search(s)`, group 1. -/
def vendorSearchAux : List Char → Option (List Char)
  | [] => none
  | c :: rest =>
    match vendorAt (c :: rest) with
    | some g => some g
    | none => vendorSearchAux rest

/-- Backtracking over the greedy run of `\s*` (longest first, zero allowed)
followed by `(.+)$` of `_seller_inline_re`; returns group 2. -/
def inlineContent (r : List Char) : Nat → Option (List Char)
  | 0 =>
    match r with
    | c :: _ =>
      if c == '\n' then none
      else some (r.takeWhile (fun d => !(d == '\n')))
    | [] => none
  | k + 1 =>
    match r.drop (k + 1) with
    | c :: _ =>
      if c == '\n' then inlineContent r k
      else some ((r.drop (k + 1)).takeWhile (fun d => !(d == '\n')))
    | [] => inlineContent r k

/-- `_seller_inline_re = ^(seller|vendor)\s*:\s*(.+)$` (re.I | re.M) anchored
at a line start; returns group 2. -/
def inlineAt (s : List Char) : Option (List Char) :=
  match (ciMatch "seller".data s).orElse (fun _ => ciMatch "vendor".data s) with
  | some t =>
    let t1 := t.dropWhile pyIsWS
    match t1 with
    | ':' :: t2 => inlineContent t2 ((t2.takeWhile pyIsWS).length)
    | _ => none
  | none => none

/-- `_seller_inline_re.search`: under re.M, `^` anchors at the start of the
string and after each `\n`; positions are tried left to right. -/
def inlineSearchAux (atStart : Bool) : List Char → Option (List Char)
  | [] => none
  | c :: rest =>
    if atStart then
      match inlineAt (c :: rest) with
      | some g => some g
      | none => inlineSearchAux (c == '\n') rest
    else inlineSearchAux (c == '\n') rest

/-- `_seller_inline_re.search(s)`, group 2. -/
def inlineSearch (s : String) : Option String :=
  (inlineSearchAux true s.data).map (fun l => ⟨l⟩)

/-! ## Company-name normalization (`_normalize_company`)

The two word-boundary substitutions
`re.sub(r"\b(pvt|private)\b\s*\b(ltd|limited)\b", "", s)` and
`re.sub(r"\b(incorporated|inc|llc|ltd)\b", "", s)` are embedded as scanners
over the original string (as `re.sub` scans), carrying the previous
character for the boundary tests and skipping every non-overlapping
match. -/

/-- Match of `(pvt|private)\b\s*\b(ltd|limited)\b` after a leading word
boundary, anchored at the current position; returns the match length.
The patterns are compiled without re.I and the scanned string has already
been lower-cased, so literal lowercase matching is exact. -/
def pairAt (prev : Option Char) (s : List Char) : Option Nat :=
  if !bdry prev then none
  else
    match (if "pvt".data.isPrefixOf s then some 3
           else if "private".data.isPrefixOf s then some 7 else none) with
    | some w1 =>
      let t1 := s.drop w1
      if !bdryAfter t1 then none
      else
        let w := (t1.takeWhile pyIsWS).length
        if w = 0 then none
        else
          let t2 := t1.drop w
          match (if "ltd".data.isPrefixOf t2 then some 3
                 else if "limited".data.isPrefixOf t2 then some 7 else none) with
          | some w2 =>
            if bdryAfter (t2.drop w2) then some (w1 + w + w2) else none
          | none => none
    | none => none

/-- Match of `(incorporated|inc|llc|ltd)\b` after a leading word boundary,
anchored at the current position, alternatives in source order with
fall-through when the trailing boundary fails; returns the match length. -/
def suffixAt (prev : Option Char) (s : List Char) : Option Nat :=
  if !bdry prev then none
  else
    [("incorporated", 13), ("inc", 3), ("llc", 3), ("ltd", 3)].findSome?
      (fun alt =>
        if alt.1.data.isPrefixOf s && bdryAfter (s.drop alt.2) then
          some alt.2
        else none)

/-- `re.sub` driver for the legal-pair pattern: scan left to right, skip
each match (replacement is empty), resume after the match end; the previous
character carried for boundary tests is the last character of the skipped
span. -/
def subPairFuel : Nat → Option Char → List Char → List Char
  | 0, _, _ => []
  | _ + 1, _, [] => []
  | fuel + 1, prev, c :: rest =>
    match pairAt prev (c :: rest) with
    | some len => subPairFuel fuel (((c :: rest).take len).getLast?) ((c :: rest).drop len)
    | none => c :: subPairFuel fuel (some c) rest

/-- `re.sub` driver for the legal-suffix pattern. -/
def subSuffixFuel : Nat → Option Char → List Char → List Char
  | 0, _, _ => []
  | _ + 1, _, [] => []
  | fuel + 1, prev, c :: rest =>
    match suffixAt prev (c :: rest) with
    | some len => subSuffixFuel fuel (((c :: rest).take len).getLast?) ((c :: rest).drop len)
    | none => c :: subSuffixFuel fuel (some c) rest

/-- `_normalize_company` of the source: whitespace-collapse and lower-case,
strip periods and commas, remove the legal-entity pair phrase, remove
standalone legal suffix tokens, collapse whitespace again. -/
def normalize_company (name : String) : String :=
  let s0 := (lowerStr (clean name)).data
  let s1 := s0.filter (fun c => !(c == '.' || c == ','))
  let s2 := subPairFuel (s1.length + 1) none s1
  let s3 := subSuffixFuel (s2.length + 1) none s2
  ⟨stripL (collapseWS s3)⟩

/-! ## The Record Normalizer (`_normalize_record`) -/

/-- A raw record: arbitrary-case string keys, string values or `None`
(Python `Dict[str, Any]` as used by the engine). -/
abbrev RawRecord := List (String × Option String)

/-- A string-keyed dictionary of strings (the canonical record and the
lower-cased key map). -/
abbrev Dict := List (String × String)

/-- Python dictionary update `d[k] = v`: replace the value at an existing
key (keeping its position) or append a new binding. -/
def dictInsert (d : Dict) (k v : String) : Dict :=
  match d with
  | [] => [(k, v)]
  | p :: rest => if p.1 == k then (k, v) :: rest else p :: dictInsert rest k v

/-- Python dictionary lookup `d.get(k)` with default `""`. -/
def dget (d : Dict) (k : String) : String := ((d.lookup k).getD "")

/-- The canonical field list `FIELDS` of the source. -/
def FIELDS : List String := ["vendor", "date", "currency", "total", "po_number"]

/-- The synonym table `SYNONYMS` of the source, one entry per canonical
field, synonyms in priority order. -/
def vendorSyns : List String := ["vendor", "seller", "supplier", "from"]

/-- Synonyms accepted for `date`. -/
def dateSyns : List String := ["date", "date of issue", "invoice date", "date issued"]

/-- Synonyms accepted for `currency`. -/
def currencySyns : List String := ["currency"]

/-- Synonyms accepted for `total`. -/
def totalSyns : List String := ["total", "amount due", "amount", "grand total"]

/-- Synonyms accepted for `po_number` (note: the canonical key `po_number`
itself is not in this list). -/
def poSyns : List String :=
  ["po", "po number", "purchase order number", "purchase order",
   "invoice number", "order number"]

/-- The lower-cased key map
`{str(k).strip().lower(): str(v) for k, v in rec.items() if v is not None}`. -/
def lowerMap (rec : RawRecord) : Dict :=
  rec.foldl
    (fun m kv =>
      match kv.2 with
      | some v => dictInsert m (lowerStr (strip kv.1)) v
      | none => m)
    []

/-- Synonym resolution for one canonical field: the value of the first
synonym key present in the lower-cased key map (`break` on the first hit),
empty when none is present. -/
def resolveSyn (lm : Dict) (ks : List String) : String :=
  (ks.findSome? (fun k => lm.lookup k)).getD ""

/-- The raw-text blob `rec.get("_raw", "")` (a `None` value behaves like the
absent key, both being falsy). -/
def rawText (rec : RawRecord) : String :=
  match rec.lookup "_raw" with
  | some (some s) => s
  | _ => ""

/-- Vendor value after synonym resolution and the label-only sanitation. -/
def sanVendor (lm : Dict) : String :=
  let v := resolveSyn lm vendorSyns
  if v ≠ "" ∧ labelOnly v then "" else v

/-- Purchase-order value after synonym resolution and the identifier-shape
sanitation (junk without a plausible identifier core is discarded). -/
def sanPo (lm : Dict) : String :=
  let v := resolveSyn lm poSyns
  if v ≠ "" ∧ ¬ idShapeOk (strip v) then "" else v

/-- Vendor fallback tier (a): the same-line `seller:`/`vendor:` pattern. -/
def vendorTierA (raw : String) : String :=
  match inlineSearch raw with
  | some g2 => strTake 64 (clean g2)
  | none => ""

/-- The next-line scan of vendor fallback tier (b): find a line starting
with `seller:` or `vendor:` (lower-cased; lines are right-stripped) whose
immediately following line strips to a non-empty name; the loop continues
past label lines whose following line is empty. -/
def nextLineScan : List String → Option String
  | [] => none
  | l :: rest =>
    if "seller:".data.isPrefixOf (lowerStr l).data
        || "vendor:".data.isPrefixOf (lowerStr l).data then
      match rest with
      | next :: _ =>
        if strip next ≠ "" then some (strip next) else nextLineScan rest
      | [] => nextLineScan rest
    else nextLineScan rest

/-- Vendor fallback tier (b). -/
def vendorTierB (raw : String) : String :=
  match nextLineScan ((pySplitlines raw).map rstrip) with
  | some name => strTake 64 (clean name)
  | none => ""

/-- Vendor fallback tier (c): the generic `Vendor: ...` pattern. -/
def vendorTierC (raw : String) : String :=
  match vendorSearchAux raw.data with
  | some g => strTake 64 (clean ⟨g⟩)
  | none => ""

/-- The vendor regex-fallback chain of `_normalize_record` (lines 109-126):
tier (a), then (b), then (c), each tried only while the value is still
empty. -/
def vendorFallback (raw : String) : String :=
  let a := vendorTierA raw
  if a ≠ "" then a
  else
    let b := vendorTierB raw
    if b ≠ "" then b else vendorTierC raw

/-- Normalized vendor field: synonym resolution, sanitation, then the
regex fallback when the raw-text blob is present and the value is still
empty. -/
def nfVendor (lm : Dict) (raw : String) : String :=
  let v := sanVendor lm
  if raw ≠ "" ∧ v = "" then vendorFallback raw else v

/-- Normalized date field: synonym resolution, then
`_date_re.search(raw) or _month_re.search(raw)` (numeric pattern first,
regardless of position) when still empty. -/
def nfDate (lm : Dict) (raw : String) : String :=
  let d := resolveSyn lm dateSyns
  if raw ≠ "" ∧ d = "" then
    match dateSearch raw with
    | some m => m
    | none =>
      match monthSearch raw with
      | some m => m
      | none => ""
  else d

/-- Normalized purchase-order field: synonym resolution and sanitation,
then the `Invoice Number` pattern first and the `PO` pattern second, the
matched identifier replaced by its digit core when one is found. -/
def nfPo (lm : Dict) (raw : String) : String :=
  let v := sanPo lm
  if raw ≠ "" ∧ v = "" then
    match (invSearchAux raw.data).orElse (fun _ => poSearchAux raw.data) with
    | some g =>
      let idVal := strip ⟨g⟩
      match idCoreSearch idVal with
      | some core => core
      | none => idVal
    | none => v
  else v

/-- Normalized total field: synonym resolution, then the amount of the
last `_money_re` occurrence in the raw text, amount-normalized. -/
def nfTotal (lm : Dict) (raw : String) : String :=
  let t := resolveSyn lm totalSyns
  if raw ≠ "" ∧ t = "" then
    match (moneyFindAll raw).getLast? with
    | some p => normalize_amount p.2
    | none => t
  else t

/-- Normalized currency field: synonym resolution, then the first
`_money_re` occurrence with a non-empty currency-code group. -/
def nfCurrency (lm : Dict) (raw : String) : String :=
  let c := resolveSyn lm currencySyns
  if raw ≠ "" ∧ c = "" then
    match moneyFindAll raw with
    | [] => c
    | ms => ((ms.find? (fun p => p.1 ≠ "")).map (fun p => p.1)).getD ""
  else c

/-- `_normalize_record` of the source.  The Python loop over the literal
`SYNONYMS` table followed by per-field sanitation and per-field regex
fallback is unrolled per canonical field (the fields are mutually
independent: each step reads only its own field and the raw-text blob);
the resulting dictionary always carries exactly the five canonical keys in
`FIELDS` order, as the Python dict does. -/
def normalize_record (rec : RawRecord) : Dict :=
  if rec.isEmpty then FIELDS.map (fun k => (k, ""))
  else
    let lm := lowerMap rec
    let raw := rawText rec
    [("vendor", nfVendor lm raw),
     ("date", nfDate lm raw),
     ("currency", nfCurrency lm raw),
     ("total", nfTotal lm raw),
     ("po_number", nfPo lm raw)]

/-! ## The Comparator (`compare_records`) -/

/-- `_candidate_fields`: the canonical fields plus every lower-cased,
trimmed, non-empty key other than the reserved `_raw` present in either
raw record (a Python `set`, modelled as a duplicate-free list). -/
def addKey (ks : List String) (k : String) : List String :=
  if ks.contains k then ks else ks ++ [k]

/-- Candidate key accumulation over both records. -/
def candidateKeys (inv po : RawRecord) : List String :=
  (inv ++ po).foldl
    (fun ks kv =>
      let lk := lowerStr (strip kv.1)
      if lk ≠ "" ∧ lk ≠ "_raw" then addKey ks lk else ks)
    FIELDS

/-- Python string comparison `<`: lexicographic on code points. -/
def strLtL : List Char → List Char → Bool
  | [], [] => false
  | [], _ :: _ => true
  | _ :: _, [] => false
  | a :: as, b :: bs =>
    if a.toNat < b.toNat then true
    else if b.toNat < a.toNat then false
    else strLtL as bs

/-- Python string comparison `<` on strings. -/
def strLt (a b : String) : Bool := strLtL a.data b.data

/-- Insert into a lexicographically sorted list of strings. -/
def insertSorted (x : String) : List String → List String
  | [] => [x]
  | y :: ys => if strLt x y then x :: y :: ys else y :: insertSorted x ys

/-- Python `sorted` on a set of strings (code-point lexicographic order). -/
def sortStrings (l : List String) : List String := l.foldr insertSorted []

/-- `_resolve` of the source: prefer the normalized value (stripped) when
non-empty; otherwise use the raw value at that exact key, string-coerced
and stripped, discarding label-only vendor values and reducing po_number
values to their identifier core (or empty). -/
def resolve (rec : RawRecord) (f : String) (n : Dict) : String :=
  if strip (dget n f) ≠ "" then strip (dget n f)
  else
    match rec.lookup f with
    | none => ""
    | some none => ""
    | some (some rv) =>
      if strip rv = "" then ""
      else if f = "vendor" then
        if labelOnly (strip rv) then "" else strip rv
      else if f = "po_number" then
        match idCoreSearch (strip rv) with
        | some core => core
        | none => ""
      else strip rv

/-- The identifier-like candidate fields of the comparator
(line 194 of the source). -/
def idFields : List String :=
  ["po_number", "invoice number", "purchase order number", "order number"]

/-- One comparison row: field name, both resolved display values, and the
status string. -/
structure Row where
  field : String
  invoice : String
  po : String
  status : String
deriving DecidableEq, Repr

/-- The generic match/missing/mismatch rule of the comparator (lines 200 and
202): `match` when both non-empty and equal, `missing` when either side is
empty, `mismatch` otherwise. -/
def genericStatus (lv rv : String) : String :=
  if lv ≠ "" ∧ rv ≠ "" ∧ lv = rv then "match"
  else if lv = "" ∨ rv = "" then "missing"
  else "mismatch"

/-- The per-field classification of `compare_records` (lines 174-202),
applied to the two resolved display values.  The source computes the
cleaned lower-cased values first and company-normalizes them only for
`vendor`; since `vendor` is not one of the identifier-like fields, this is
equivalently written with the vendor case dispatched first, so each branch
carries its normalization inline. -/
def classify (f iv pv : String) : String :=
  if f = "total" then
    if normalize_amount iv ≠ "" ∧ normalize_amount pv ≠ "" then
      match pyFloat (normalize_amount iv), pyFloat (normalize_amount pv) with
      | some a, some b =>
        if plt (pabs (psub a b)) double001 then "match" else "mismatch"
      | _, _ => "mismatch"
    else "missing"
  else if f = "vendor" then
    genericStatus (normalize_company (lowerStr (clean iv)))
      (normalize_company (lowerStr (clean pv)))
  else if idFields.contains f then
    match idCoreSearch iv, idCoreSearch pv with
    | some li, some ri => if li = ri then "match" else "mismatch"
    | _, _ => genericStatus (lowerStr (clean iv)) (lowerStr (clean pv))
  else genericStatus (lowerStr (clean iv)) (lowerStr (clean pv))

/-- The rows of `compare_records`: one row per candidate field (in sorted
order) whose resolved values are not both empty. -/
def compareRows (inv po : RawRecord) : List Row :=
  let invN := normalize_record inv
  let poN := normalize_record po
  (sortStrings (candidateKeys inv po)).filterMap
    (fun f =>
      let iv := resolve inv f invN
      let pv := resolve po f poN
      if iv = "" ∧ pv = "" then none
      else some ⟨f, iv, pv, classify f iv pv⟩)

/-- `compare_records` of the source: the comparison rows together with the
number of `mismatch` rows (the empty-table case returns zero). -/
def compare_records (inv po : RawRecord) : List Row × Nat :=
  let rows := compareRows inv po
  (rows, rows.countP (fun r => r.status == "mismatch"))

/-! ## Specification-level definitions used by the claims -/

/-- The raw record's value at a key, string-coerced (`None` and the absent
key both read as the empty string). -/
def rawAt (rec : RawRecord) (f : String) : String :=
  match rec.lookup f with
  | some (some rv) => rv
  | _ => ""

/-- The resolution rule in the specification's wording (with the canonical
value trimmed, as the code does): prefer the trimmed canonical-record value
when non-empty; otherwise the raw record's value at that exact key,
string-coerced and trimmed, with the vendor label-only discard and the
po_number identifier-core sanitation. -/
def resolveSpec (rec : RawRecord) (f : String) (n : Dict) : String :=
  if strip (dget n f) ≠ "" then strip (dget n f)
  else
    if f = "vendor" then
      (if labelOnly (strip (rawAt rec f)) then "" else strip (rawAt rec f))
    else if f = "po_number" then (idCoreSearch (strip (rawAt rec f))).getD ""
    else strip (rawAt rec f)

/-- Comparability of two resolved values under the field's comparison rule:
for `total`, both sides amount-normalize to a parseable number; for
identifier-like fields, both cores are found or both cleaned values are
non-empty; for `vendor`, both company-normalized values are non-empty;
otherwise both cleaned values (any two non-empty values are comparable
generically, so this reduces to `true` there). -/
def fieldComparable (f iv pv : String) : Bool :=
  if f = "total" then
    !(normalize_amount iv == "") && !(normalize_amount pv == "")
  else if f = "vendor" then
    !(normalize_company (lowerStr (clean iv)) == "")
      && !(normalize_company (lowerStr (clean pv)) == "")
  else if idFields.contains f then
    ((idCoreSearch iv).isSome && (idCoreSearch pv).isSome)
      || (!(lowerStr (clean iv) == "") && !(lowerStr (clean pv) == ""))
  else
    !(lowerStr (clean iv) == "") && !(lowerStr (clean pv) == "")

/-- Equivalence of two resolved values under the field's comparison rule:
amount equality within the double tolerance `0.01` for `total` (the
comparison the program performs, on binary64 doubles); identifier-core
string equality (with the generic case-insensitive fallback) for
identifier-like fields; company-normalized equality for `vendor`;
case-insensitive whitespace-collapsed equality otherwise. -/
def fieldEquiv (f iv pv : String) : Bool :=
  if f = "total" then
    match pyFloat (normalize_amount iv), pyFloat (normalize_amount pv) with
    | some a, some b => plt (pabs (psub a b)) double001
    | _, _ => false
  else if f = "vendor" then
    genericStatus (normalize_company (lowerStr (clean iv)))
      (normalize_company (lowerStr (clean pv))) == "match"
  else if idFields.contains f then
    match idCoreSearch iv, idCoreSearch pv with
    | some li, some ri => li == ri
    | _, _ => genericStatus (lowerStr (clean iv)) (lowerStr (clean pv)) == "match"
  else genericStatus (lowerStr (clean iv)) (lowerStr (clean pv)) == "match"

/-- The row invariant of the data model: no row with both sides empty;
`match` and `mismatch` rows have both sides non-empty and are, respectively,
equivalent and non-equivalent under the field's rule; `missing` rows have
exactly one side empty or incomparable sides. -/
def rowInvariant (r : Row) : Prop :=
  ¬(r.invoice = "" ∧ r.po = "")
  ∧ (r.status = "match" →
      r.invoice ≠ "" ∧ r.po ≠ "" ∧ fieldEquiv r.field r.invoice r.po = true)
  ∧ (r.status = "mismatch" →
      r.invoice ≠ "" ∧ r.po ≠ "" ∧ fieldEquiv r.field r.invoice r.po = false)
  ∧ (r.status = "missing" →
      ((r.invoice = "" ∧ r.po ≠ "") ∨ (r.invoice ≠ "" ∧ r.po = "")
        ∨ fieldComparable r.field r.invoice r.po = false))

/-! ## Helper lemmas -/

theorem mem_insertSorted {a x : String} {l : List String} :
    a ∈ insertSorted x l ↔ a = x ∨ a ∈ l := by
  induction l with
  | nil => simp [insertSorted]
  | cons y ys ih =>
    simp only [insertSorted]
    split
    · simp
    · simp only [List.mem_cons, ih]
      tauto

theorem mem_sortStrings {a : String} {l : List String} :
    a ∈ sortStrings l ↔ a ∈ l := by
  induction l with
  | nil => simp [sortStrings]
  | cons x xs ih =>
    simp only [sortStrings, List.foldr_cons] at *
    rw [mem_insertSorted, ih]
    simp

theorem mem_addKey {a k : String} {ks : List String} :
    a ∈ addKey ks k ↔ a ∈ ks ∨ a = k := by
  unfold addKey
  split
  · rename_i h
    constructor
    · exact fun hm => Or.inl hm
    · rintro (hm | rfl)
      · exact hm
      · simpa using h
  · simp

theorem mem_candidateFold {k : String} (l : List (String × Option String))
    (ks : List String) :
    (k ∈ l.foldl
      (fun ks kv =>
        let lk := lowerStr (strip kv.1)
        if lk ≠ "" ∧ lk ≠ "_raw" then addKey ks lk else ks) ks
      ↔ k ∈ ks ∨ ∃ kv ∈ l, lowerStr (strip kv.1) = k ∧ k ≠ "" ∧ k ≠ "_raw") := by
  induction l generalizing ks with
  | nil => simp
  | cons kv0 rest ih =>
    simp only [List.foldl_cons]
    rw [ih]
    simp only [List.mem_cons]
    constructor
    · rintro (hmem | hex)
      · by_cases hc : lowerStr (strip kv0.1) ≠ "" ∧ lowerStr (strip kv0.1) ≠ "_raw"
        · rw [if_pos hc, mem_addKey] at hmem
          rcases hmem with hmem | rfl
          · exact Or.inl hmem
          · exact Or.inr ⟨kv0, Or.inl rfl, rfl, hc⟩
        · rw [if_neg hc] at hmem
          exact Or.inl hmem
      · obtain ⟨kv, hkv, hlk, hk⟩ := hex
        exact Or.inr ⟨kv, Or.inr hkv, hlk, hk⟩
    · rintro (hmem | hex)
      · left
        by_cases hc : lowerStr (strip kv0.1) ≠ "" ∧ lowerStr (strip kv0.1) ≠ "_raw"
        · rw [if_pos hc, mem_addKey]
          exact Or.inl hmem
        · rwa [if_neg hc]
      · obtain ⟨kv, hkv | hkv, hlk, hk⟩ := hex
        · subst hkv
          left
          rw [if_pos (by rw [hlk]; exact hk), mem_addKey]
          exact Or.inr hlk.symm
        · exact Or.inr ⟨kv, hkv, hlk, hk⟩

theorem mem_candidateKeys {inv po : RawRecord} {k : String} :
    k ∈ candidateKeys inv po ↔
      k ∈ FIELDS ∨ ∃ kv, (kv ∈ inv ∨ kv ∈ po)
        ∧ lowerStr (strip kv.1) = k ∧ k ≠ "" ∧ k ≠ "_raw" := by
  unfold candidateKeys
  rw [mem_candidateFold]
  simp [List.mem_append]

theorem mem_compareRows {inv po : RawRecord} {r : Row} :
    r ∈ compareRows inv po ↔
      ∃ f, f ∈ sortStrings (candidateKeys inv po)
        ∧ ¬(resolve inv f (normalize_record inv) = ""
            ∧ resolve po f (normalize_record po) = "")
        ∧ r = ⟨f, resolve inv f (normalize_record inv),
                resolve po f (normalize_record po),
                classify f (resolve inv f (normalize_record inv))
                  (resolve po f (normalize_record po))⟩ := by
  unfold compareRows
  rw [List.mem_filterMap]
  constructor
  · rintro ⟨f, hf, hsome⟩
    by_cases h : resolve inv f (normalize_record inv) = ""
        ∧ resolve po f (normalize_record po) = ""
    · rw [if_pos h] at hsome
      exact absurd hsome (by simp)
    · rw [if_neg h] at hsome
      exact ⟨f, hf, h, (Option.some_inj.mp hsome).symm⟩
  · rintro ⟨f, hf, h, rfl⟩
    exact ⟨f, hf, by rw [if_neg h]⟩

theorem fields_mem_sorted {inv po : RawRecord} {f : String} (hf : f ∈ FIELDS) :
    f ∈ sortStrings (candidateKeys inv po) := by
  rw [mem_sortStrings, mem_candidateKeys]
  exact Or.inl hf

theorem mem_dropWhile_of_neg {p : Char → Bool} {c : Char} {l : List Char}
    (hc : c ∈ l) (hp : p c = false) : c ∈ l.dropWhile p := by
  induction l with
  | nil => cases hc
  | cons b t ih =>
    rw [List.dropWhile_cons]
    rcases List.mem_cons.mp hc with rfl | hct
    · rw [hp]
      exact List.mem_cons_self _ _
    · by_cases hb : p b
      · rw [if_pos hb]
        exact ih hct
      · rw [if_neg hb]
        exact List.mem_cons_of_mem _ hct

theorem mem_stripL_of_neg {c : Char} {l : List Char}
    (hc : c ∈ l) (hp : pyIsWS c = false) : c ∈ stripL l := by
  unfold stripL rdropWhile
  have h1 : c ∈ l.dropWhile pyIsWS := mem_dropWhile_of_neg hc hp
  have h2 : c ∈ (l.dropWhile pyIsWS).reverse := List.mem_reverse.mpr h1
  exact List.mem_reverse.mpr (mem_dropWhile_of_neg h2 hp)

theorem mem_collapseWS_of_neg {c : Char} {l : List Char}
    (hc : c ∈ l) (hp : pyIsWS c = false) : c ∈ collapseWS l := by
  induction l with
  | nil => cases hc
  | cons b t ih =>
    match t, hc with
    | [], hc =>
      rcases List.mem_cons.mp hc with rfl | h
      · simp [collapseWS, hp]
      · cases h
    | d :: t2, hc =>
      show c ∈ collapseWS (b :: d :: t2)
      rcases List.mem_cons.mp hc with rfl | h
      · rw [collapseWS]
        rw [if_neg (by simp [hp])]
        exact List.mem_cons_self _ _
      · rw [collapseWS]
        by_cases hb : pyIsWS b
        · rw [if_pos hb]
          by_cases hd : pyIsWS d
          · rw [if_pos hd]
            exact ih h
          · rw [if_neg hd]
            exact List.mem_cons_of_mem _ (ih h)
        · rw [if_neg hb]
          exact List.mem_cons_of_mem _ (ih h)

theorem string_ne_empty_iff {s : String} : s ≠ "" ↔ s.data ≠ [] := by
  rw [ne_eq, String.ext_iff]

theorem clean_ne_of_mem {c : Char} {s : String}
    (hc : c ∈ s.data) (hp : pyIsWS c = false) : clean s ≠ "" := by
  rw [string_ne_empty_iff]
  intro h
  have : c ∈ stripL (collapseWS s.data) :=
    mem_stripL_of_neg (mem_collapseWS_of_neg hc hp) hp
  rw [show (clean s).data = stripL (collapseWS s.data) from rfl] at h
  rw [h] at this
  cases this

theorem dropWhile_head_neg {p : Char → Bool} {l t : List Char} {c : Char}
    (h : l.dropWhile p = c :: t) : p c = false := by
  induction l with
  | nil => cases h
  | cons b t2 ih =>
    rw [List.dropWhile_cons] at h
    by_cases hb : p b
    · rw [if_pos hb] at h
      exact ih h
    · rw [if_neg hb] at h
      cases h
      exact Bool.eq_false_iff.mpr hb

theorem strip_ne_nonws {s : String} (h : strip s ≠ "") :
    ∃ c ∈ (strip s).data, pyIsWS c = false := by
  rw [string_ne_empty_iff] at h
  have hdata : (strip s).data = stripL s.data := rfl
  rw [hdata] at h ⊢
  unfold stripL at h ⊢
  rcases hd : s.data.dropWhile pyIsWS with _ | ⟨c, t⟩
  · rw [hd] at h
    simp [rdropWhile] at h
  · have hc : pyIsWS c = false := dropWhile_head_neg hd
    refine ⟨c, ?_, hc⟩
    unfold rdropWhile
    rw [List.mem_reverse]
    apply mem_dropWhile_of_neg _ hc
    rw [List.mem_reverse]
    exact List.mem_cons_self _ _

theorem strip_clean_ne {s : String} (hs : strip s ≠ "") : clean (strip s) ≠ "" := by
  obtain ⟨c, hc, hp⟩ := strip_ne_nonws hs
  exact clean_ne_of_mem hc hp

theorem lowerStr_ne_empty {s : String} : lowerStr s ≠ "" ↔ s ≠ "" := by
  rw [string_ne_empty_iff, string_ne_empty_iff]
  obtain ⟨d⟩ := s
  simp [lowerStr]

/-! ## Claims -/

/-- Claim C3 (confirmed): for every raw record - empty, absent (modelled by
the empty record) or holding arbitrary string-or-None values - the Record
Normalizer returns a mapping whose keys are exactly the five canonical
fields `vendor`, `date`, `currency`, `total`, `po_number`, in order; the
embedding is total, so no exception can be raised. -/
theorem c3_normalize_keys (rec : RawRecord) :
    (normalize_record rec).map Prod.fst = FIELDS := by
  unfold normalize_record
  split <;> simp [FIELDS]

/-- Claim C1 (counterexample): on the invoice record
`{"Seller": "Acme Inc.", "Total": "$1,200.00", "Invoice Number": "INV-000987654"}`
and the PO record `{"vendor": "ACME", "amount due": "1200.00", "po": "987654"}`,
`compare_records` does **not** produce exactly three matching rows with zero
mismatches: it produces five rows - among them `po_number` with status
`mismatch` (identifier cores `000987654` vs `987654` differ as strings) and
the extra rows `amount due` and `po` with status `missing` - and a mismatch
count of `1`, not `0`. -/
theorem c1_counterexample :
    compare_records
      [("Seller", some "Acme Inc."), ("Total", some "$1,200.00"),
       ("Invoice Number", some "INV-000987654")]
      [("vendor", some "ACME"), ("amount due", some "1200.00"),
       ("po", some "987654")] =
    ([⟨"amount due", "", "1200.00", "missing"⟩,
      ⟨"po", "", "987654", "missing"⟩,
      ⟨"po_number", "INV-000987654", "987654", "mismatch"⟩,
      ⟨"total", "$1,200.00", "1200.00", "match"⟩,
      ⟨"vendor", "Acme Inc.", "ACME", "match"⟩], 1)
    ∧ (1 : Nat) ≠ 0 ∧ ("mismatch" : String) ≠ "match" := by
  refine ⟨by decide, by decide, by decide⟩

/-- Claim C1 (amended): on the same pair of records, `compare_records`
produces exactly the rows `amount due missing`, `po missing`,
`po_number mismatch`, `total match`, `vendor match` (in sorted field order)
and a mismatch count of `1`. -/
theorem c1_amended :
    compare_records
      [("Seller", some "Acme Inc."), ("Total", some "$1,200.00"),
       ("Invoice Number", some "INV-000987654")]
      [("vendor", some "ACME"), ("amount due", some "1200.00"),
       ("po", some "987654")] =
    ([⟨"amount due", "", "1200.00", "missing"⟩,
      ⟨"po", "", "987654", "missing"⟩,
      ⟨"po_number", "INV-000987654", "987654", "mismatch"⟩,
      ⟨"total", "$1,200.00", "1200.00", "match"⟩,
      ⟨"vendor", "Acme Inc.", "ACME", "match"⟩], 1) := by
  decide

/-- Claim C2 (counterexample): a concrete pair of raw records whose resolved
`po_number` values are `"PO-000123456"` and `"123456"` is classified
`mismatch`, not `match`: the identifier cores extracted by the
greedy-digit-run regex are `"000123456"` and `"123456"`, which are not
string-equal. -/
theorem c2_counterexample :
    (compare_records [("po", some "PO-000123456")] [("po", some "123456")]).1 =
      [⟨"po", "PO-000123456", "123456", "mismatch"⟩,
       ⟨"po_number", "PO-000123456", "123456", "mismatch"⟩]
    ∧ resolve [("po", some "PO-000123456")] "po_number"
        (normalize_record [("po", some "PO-000123456")]) = "PO-000123456"
    ∧ resolve [("po", some "123456")] "po_number"
        (normalize_record [("po", some "123456")]) = "123456"
    ∧ idCoreSearch "PO-000123456" = some "000123456"
    ∧ idCoreSearch "123456" = some "123456"
    ∧ ("mismatch" : String) ≠ "match" := by
  refine ⟨by decide, by decide, by decide, by decide, by decide, by decide⟩

/-- Claim C2 (amended): for every pair of raw records whose resolved
`po_number` values are `"PO-000123456"` and `"123456"`, the comparator emits
a `po_number` row classified `mismatch`, because the extracted identifier
cores `"000123456"` and `"123456"` (leading zeros retained by the greedy
digit-run capture) are not string-equal. -/
theorem c2_amended (inv po : RawRecord)
    (hi : resolve inv "po_number" (normalize_record inv) = "PO-000123456")
    (hp : resolve po "po_number" (normalize_record po) = "123456") :
    (⟨"po_number", "PO-000123456", "123456", "mismatch"⟩ : Row)
      ∈ (compare_records inv po).1 := by
  have hmem : "po_number" ∈ sortStrings (candidateKeys inv po) :=
    fields_mem_sorted (by decide)
  show _ ∈ compareRows inv po
  rw [mem_compareRows]
  refine ⟨"po_number", hmem, ?_, ?_⟩
  · rw [hi, hp]
    rintro ⟨h, -⟩
    exact absurd h (by decide)
  · rw [hi, hp]
    decide

/-- Claim C2 (witness): the amended theorem applies to the concrete records
`{"po": "PO-000123456"}` and `{"po": "123456"}`. -/
theorem c2_witness :
    (⟨"po_number", "PO-000123456", "123456", "mismatch"⟩ : Row)
      ∈ (compare_records [("po", some "PO-000123456")]
          [("po", some "123456")]).1 :=
  c2_amended [("po", some "PO-000123456")] [("po", some "123456")]
    (by decide) (by decide)

/-- Claim C4 (counterexample): normalizing the already-canonical record
with `po_number = "123456"` (and the other four canonical keys present) does
not return the values unchanged: the `po_number` value is dropped to the
empty string, because the synonym list for `po_number` does not contain the
key `po_number` itself. -/
theorem c4_counterexample :
    normalize_record
      [("vendor", some "Acme"), ("date", some "2024-01-01"),
       ("currency", some "USD"), ("total", some "5.00"),
       ("po_number", some "123456")] =
    [("vendor", "Acme"), ("date", "2024-01-01"), ("currency", "USD"),
     ("total", "5.00"), ("po_number", "")]
    ∧ ("" : String) ≠ "123456" := by
  refine ⟨by decide, by decide⟩

/-- Claim C4 (amended): normalizing a raw record whose keys are exactly the
five canonical field names returns `date`, `currency` and `total` unchanged
and `vendor` unchanged unless it is a label-only value (in which case it is
reset to empty), but always resets `po_number` to the empty string, because
the canonical key `po_number` is not in its own synonym list. -/
theorem c4_amended (v d c t p : String) :
    normalize_record
      [("vendor", some v), ("date", some d), ("currency", some c),
       ("total", some t), ("po_number", some p)] =
    [("vendor", if labelOnly v then "" else v), ("date", d), ("currency", c),
     ("total", t), ("po_number", "")] := by
  have h0 : normalize_record
      [("vendor", some v), ("date", some d), ("currency", some c),
       ("total", some t), ("po_number", some p)] =
    [("vendor", if v ≠ "" ∧ labelOnly v then "" else v), ("date", d),
     ("currency", c), ("total", t), ("po_number", "")] := rfl
  rw [h0]
  have h : (if v ≠ "" ∧ labelOnly v then "" else v)
      = (if labelOnly v then "" else v) := by
    by_cases hv : v = ""
    · subst hv
      simp
    · by_cases hl : labelOnly v
      · rw [if_pos ⟨hv, hl⟩, if_pos hl]
      · rw [if_neg (by tauto), if_neg (by simpa using hl)]
  rw [h]

/-- Claim C5 (counterexample): for the raw text
`"Jan 2, 2020 or 3/4/2021"` the textual month pattern matches at document
position 0 (`"Jan 2, 2020"`) while the numeric pattern matches only later
(`"3/4/2021"`), yet the Record Normalizer sets `date` to the numeric match:
the code gives the numeric pattern global precedence instead of taking the
first match in document order across both patterns. -/
theorem c5_counterexample :
    dget (normalize_record [("_raw", some "Jan 2, 2020 or 3/4/2021")]) "date"
      = "3/4/2021"
    ∧ monthAt "Jan 2, 2020 or 3/4/2021".data = some 11
    ∧ strTake 11 "Jan 2, 2020 or 3/4/2021" = "Jan 2, 2020"
    ∧ dateSearch "Jan 2, 2020 or 3/4/2021" = some "3/4/2021"
    ∧ ("3/4/2021" : String) ≠ "Jan 2, 2020" := by
  refine ⟨by decide, by decide, by decide, by decide, by decide⟩

/-- Claim C5 (amended): when the date field is still empty after synonym
resolution and the raw-text blob is present, the Record Normalizer sets
`date` to the first match of the numeric pattern when the numeric pattern
matches anywhere in the text, and otherwise to the first match of the
textual month pattern (empty when neither matches); no calendrical
validation is performed. -/
theorem c5_amended (rec : RawRecord)
    (hsyn : resolveSyn (lowerMap rec) dateSyns = "")
    (hraw : rawText rec ≠ "") :
    dget (normalize_record rec) "date" =
      (match dateSearch (rawText rec) with
       | some m => m
       | none => (monthSearch (rawText rec)).getD "") := by
  have hne : ¬ (rec.isEmpty = true) := by
    intro h
    rw [List.isEmpty_iff] at h
    subst h
    exact hraw rfl
  unfold normalize_record
  rw [if_neg hne]
  show nfDate (lowerMap rec) (rawText rec) = _
  show (if rawText rec ≠ "" ∧ resolveSyn (lowerMap rec) dateSyns = "" then _
        else resolveSyn (lowerMap rec) dateSyns) = _
  rw [if_pos ⟨hraw, hsyn⟩]
  cases hds : dateSearch (rawText rec)
  · cases hms : monthSearch (rawText rec) <;> rfl
  · rfl

/-- Claim C5 (witness): the amended theorem applied to the record whose raw
text contains a month-pattern match and a later numeric-pattern match. -/
theorem c5_witness :
    resolveSyn (lowerMap [("_raw", some "Jan 2, 2020 or 3/4/2021")]) dateSyns = ""
    ∧ dget (normalize_record [("_raw", some "Jan 2, 2020 or 3/4/2021")]) "date"
        = "3/4/2021" := by
  refine ⟨by decide, ?_⟩
  exact (c5_amended [("_raw", some "Jan 2, 2020 or 3/4/2021")]
    (by decide) (by decide)).trans (by decide)

theorem nextLineScan_spec :
    ∀ (lines : List String) (name : String), nextLineScan lines = some name →
      ∃ s, name = strip s ∧ name ≠ "" := by
  intro lines
  induction lines with
  | nil => intro name h; cases h
  | cons l rest ih =>
    intro name h
    unfold nextLineScan at h
    by_cases hl : ("seller:".data.isPrefixOf (lowerStr l).data
        || "vendor:".data.isPrefixOf (lowerStr l).data) = true
    · rw [if_pos hl] at h
      cases rest with
      | nil => exact ih name h
      | cons next t =>
        change (if strip next ≠ "" then some (strip next)
          else nextLineScan (next :: t)) = some name at h
        by_cases hn : strip next ≠ ""
        · rw [if_pos hn] at h
          cases h
          exact ⟨next, rfl, hn⟩
        · rw [if_neg hn] at h
          exact ih name h
    · rw [if_neg hl] at h
      exact ih name h

theorem strTake_ne {n : Nat} {s : String} (hn : n ≠ 0) (hs : s ≠ "") :
    strTake n s ≠ "" := by
  rw [string_ne_empty_iff] at hs ⊢
  show s.data.take n ≠ []
  match s.data, hs, n, hn with
  | c :: t, _, m + 1, _ => simp

/-- Claim C6 (counterexample): in the raw text
`"x\rseller:\r\rAcme Corp"` the line scan finds a line starting with
`seller:` whose next non-empty line is `"Acme Corp"`, the inline pattern
does not match (no `\n` line starts), yet the Record Normalizer leaves the
vendor empty: the code only inspects the immediately following line, which
is empty here, rather than the next non-empty line. -/
theorem c6_counterexample :
    dget (normalize_record [("_raw", some "x\rseller:\r\rAcme Corp")]) "vendor" = ""
    ∧ (pySplitlines "x\rseller:\r\rAcme Corp").map rstrip
        = ["x", "seller:", "", "Acme Corp"]
    ∧ vendorTierA "x\rseller:\r\rAcme Corp" = ""
    ∧ ("" : String) ≠ "Acme Corp" := by
  refine ⟨by decide, by decide, by decide, by decide⟩

/-- Claim C6 (amended): when the vendor field is empty after synonym
resolution and sanitation, the raw-text blob is present, the inline
seller/vendor pattern produced nothing, and the line scan finds a line
starting with `seller:` or `vendor:` whose **immediately following** line
strips to a non-empty name (label lines followed by an empty line are
skipped and the scan continues), the vendor is set to that name,
whitespace-collapsed and truncated to 64 characters. -/
theorem c6_amended (rec : RawRecord) (name : String)
    (hv : sanVendor (lowerMap rec) = "")
    (hraw : rawText rec ≠ "")
    (ha : vendorTierA (rawText rec) = "")
    (hb : nextLineScan ((pySplitlines (rawText rec)).map rstrip) = some name) :
    dget (normalize_record rec) "vendor" = strTake 64 (clean name) := by
  have hne : ¬ (rec.isEmpty = true) := by
    intro h
    rw [List.isEmpty_iff] at h
    subst h
    exact hraw rfl
  have hname : name ≠ "" ∧ clean name ≠ "" := by
    obtain ⟨s, rfl, hne'⟩ := nextLineScan_spec _ _ hb
    exact ⟨hne', strip_clean_ne hne'⟩
  unfold normalize_record
  rw [if_neg hne]
  show nfVendor (lowerMap rec) (rawText rec) = _
  show (if rawText rec ≠ "" ∧ sanVendor (lowerMap rec) = ""
        then vendorFallback (rawText rec) else sanVendor (lowerMap rec)) = _
  rw [if_pos ⟨hraw, hv⟩]
  unfold vendorFallback
  rw [ha, if_neg (by simp)]
  have hbv : vendorTierB (rawText rec) = strTake 64 (clean name) := by
    unfold vendorTierB
    rw [hb]
  rw [hbv, if_pos (strTake_ne (by decide) hname.2)]

/-- Claim C6 (witness): the amended theorem applied to a record whose label
line is immediately followed by the vendor name. -/
theorem c6_witness :
    nextLineScan ((pySplitlines "x\rseller:\rAcme Corp").map rstrip)
      = some "Acme Corp"
    ∧ dget (normalize_record [("_raw", some "x\rseller:\rAcme Corp")]) "vendor"
        = "Acme Corp" := by
  refine ⟨by decide, ?_⟩
  exact (c6_amended [("_raw", some "x\rseller:\rAcme Corp")] "Acme Corp"
    (by decide) (by decide) (by decide) (by decide)).trans (by decide)

theorem classify_total_eq (iv pv : String) :
    classify "total" iv pv =
      (if normalize_amount iv ≠ "" ∧ normalize_amount pv ≠ "" then
        match pyFloat (normalize_amount iv), pyFloat (normalize_amount pv) with
        | some a, some b =>
          if plt (pabs (psub a b)) double001 then "match" else "mismatch"
        | _, _ => "mismatch"
      else "missing") := by
  unfold classify
  rw [if_pos rfl]

theorem classify_vendor_eq (iv pv : String) :
    classify "vendor" iv pv =
      genericStatus (normalize_company (lowerStr (clean iv)))
        (normalize_company (lowerStr (clean pv))) := by
  unfold classify
  rw [if_neg (show ¬ ("vendor" : String) = "total" by decide)]
  rw [if_pos (show ("vendor" : String) = "vendor" from rfl)]

theorem classify_idlike_eq (f iv pv : String)
    (hf : idFields.contains f = true) :
    classify f iv pv =
      (match idCoreSearch iv, idCoreSearch pv with
       | some li, some ri => if li = ri then "match" else "mismatch"
       | _, _ => genericStatus (lowerStr (clean iv)) (lowerStr (clean pv))) := by
  have hft : ¬ f = "total" := by
    intro h
    subst h
    exact absurd hf (by decide)
  have hfv : ¬ f = "vendor" := by
    intro h
    subst h
    exact absurd hf (by decide)
  unfold classify
  rw [if_neg hft, if_neg hfv, if_pos hf]

theorem classify_generic_eq (f iv pv : String)
    (hft : f ≠ "total") (hfv : f ≠ "vendor")
    (hfid : idFields.contains f = false) :
    classify f iv pv =
      genericStatus (lowerStr (clean iv)) (lowerStr (clean pv)) := by
  unfold classify
  rw [if_neg hft, if_neg hfv, if_neg (by rw [hfid]; exact Bool.false_ne_true)]

/-- Claim C10 (confirmed): for every comparison row on the `vendor` field
whose two resolved values are non-empty, if company-name normalization (as
the comparator applies it, after whitespace-collapsing and lower-casing)
reduces either value to the empty string, the row's status is `missing` -
not `match` and not `mismatch`. -/
theorem c10_vendor_missing (inv po : RawRecord) (r : Row)
    (hm : r ∈ (compare_records inv po).1)
    (hf : r.field = "vendor")
    (hiv : r.invoice ≠ "") (hpv : r.po ≠ "")
    (hnorm : normalize_company (lowerStr (clean r.invoice)) = ""
      ∨ normalize_company (lowerStr (clean r.po)) = "") :
    r.status = "missing" := by
  have hm' : r ∈ compareRows inv po := hm
  rw [mem_compareRows] at hm'
  obtain ⟨f, -, -, rfl⟩ := hm'
  simp only at hf hiv hpv hnorm ⊢
  subst hf
  rw [classify_vendor_eq]
  unfold genericStatus
  rcases hnorm with hn | hn
  · rw [if_neg (by rw [hn]; rintro ⟨h, -⟩; exact h rfl), if_pos (Or.inl hn)]
  · rw [if_neg (by rw [hn]; rintro ⟨-, h, -⟩; exact h rfl), if_pos (Or.inr hn)]

/-- Claim C10 (witness): the theorem applies to the records
`{"vendor": "Inc."}` and `{"vendor": "Acme"}`: `"Inc."` company-normalizes
to the empty string and the vendor row is `missing`. -/
theorem c10_witness :
    (⟨"vendor", "Inc.", "Acme", "missing"⟩ : Row)
      ∈ (compare_records [("vendor", some "Inc.")] [("vendor", some "Acme")]).1
    ∧ normalize_company (lowerStr (clean "Inc.")) = ""
    ∧ (⟨"vendor", "Inc.", "Acme", "missing"⟩ : Row).status = "missing" := by
  refine ⟨by decide, by decide, ?_⟩
  exact c10_vendor_missing [("vendor", some "Inc.")] [("vendor", some "Acme")]
    ⟨"vendor", "Inc.", "Acme", "missing"⟩ (by decide) rfl (by decide) (by decide)
    (Or.inl (by decide))

theorem digitChar_digit (n : Nat) : isDigitC (digitChar n) = true := by
  unfold digitChar
  split <;> decide

theorem digitChar_isDigit (n : Nat) : (digitChar n).isDigit = true :=
  digitChar_digit n

theorem natDigitsAux_digits (fuel : Nat) :
    ∀ n, ∀ c ∈ natDigitsAux fuel n, isDigitC c = true := by
  induction fuel with
  | zero => intro n c hc; cases hc
  | succ fuel ih =>
    intro n c hc
    rw [natDigitsAux] at hc
    by_cases h : n < 10
    · rw [if_pos h] at hc
      rcases List.mem_singleton.mp hc with rfl
      exact digitChar_digit n
    · rw [if_neg h] at hc
      rcases List.mem_append.mp hc with hc | hc
      · exact ih _ c hc
      · rcases List.mem_singleton.mp hc with rfl
        exact digitChar_digit _

theorem natDigitsAux_ne_nil (fuel n : Nat) : natDigitsAux (fuel + 1) n ≠ [] := by
  rw [natDigitsAux]
  by_cases h : n < 10
  · rw [if_pos h]
    simp
  · rw [if_neg h]
    simp

theorem takeWhile_all_append {p : Char → Bool} {xs ys : List Char} {y : Char}
    (hxs : ∀ c ∈ xs, p c = true) (hy : p y = false) :
    (xs ++ y :: ys).takeWhile p = xs := by
  induction xs with
  | nil => simp [List.takeWhile_cons, hy]
  | cons x t ih =>
    rw [List.cons_append, List.takeWhile_cons,
      if_pos (hxs x (List.mem_cons_self _ _))]
    rw [ih (fun c hc => hxs c (List.mem_cons_of_mem _ hc))]

theorem renderFin_isSome (q : ℚ) :
    (pyParse (renderFin q).data).isSome = true := by
  have hdata : (renderFin q).data =
      natDigits ((roundHalfEven (mkRat (100 * q.num) q.den)).toNat / 100)
        ++ '.' :: [digitChar ((roundHalfEven (mkRat (100 * q.num) q.den)).toNat % 100 / 10),
                   digitChar ((roundHalfEven (mkRat (100 * q.num) q.den)).toNat % 10)] := rfl
  have hdig : ∀ c ∈ natDigits ((roundHalfEven (mkRat (100 * q.num) q.den)).toNat / 100),
      isDigitC c = true := fun c hc => natDigitsAux_digits _ _ c hc
  have hne : natDigits ((roundHalfEven (mkRat (100 * q.num) q.den)).toNat / 100) ≠ [] :=
    natDigitsAux_ne_nil _ _
  unfold pyParse
  rw [hdata]
  rw [takeWhile_all_append hdig (by decide)]
  rw [List.drop_left]
  simp [hne, digitChar_digit, digitChar_isDigit, isDigitC]

theorem renderFin_head (q : ℚ) :
    ∃ c rest, (renderFin q).data = c :: rest ∧ isDigitC c = true := by
  have hdata : (renderFin q).data =
      natDigits ((roundHalfEven (mkRat (100 * q.num) q.den)).toNat / 100)
        ++ '.' :: [digitChar ((roundHalfEven (mkRat (100 * q.num) q.den)).toNat % 100 / 10),
                   digitChar ((roundHalfEven (mkRat (100 * q.num) q.den)).toNat % 10)] := rfl
  cases hnd : natDigits ((roundHalfEven (mkRat (100 * q.num) q.den)).toNat / 100) with
  | nil => exact absurd hnd (natDigitsAux_ne_nil _ _)
  | cons c rest =>
    refine ⟨c, rest ++ '.' :: [digitChar ((roundHalfEven (mkRat (100 * q.num) q.den)).toNat % 100 / 10),
      digitChar ((roundHalfEven (mkRat (100 * q.num) q.den)).toNat % 10)], ?_, ?_⟩
    · rw [hdata, hnd]
      rfl
    · have hmem : c ∈ natDigits ((roundHalfEven (mkRat (100 * q.num) q.den)).toNat / 100) := by
        rw [hnd]
        exact List.mem_cons_self _ _
      exact natDigitsAux_digits _ _ c hmem

theorem renderFin_ne_special (q : ℚ) :
    renderFin q ≠ "inf" ∧ renderFin q ≠ "-inf" ∧ renderFin q ≠ "nan" := by
  obtain ⟨c, rest, hdata, hdig⟩ := renderFin_head q
  refine ⟨?_, ?_, ?_⟩ <;> intro h <;> rw [h] at hdata <;>
    injection hdata with hc _ <;> rw [← hc] at hdig <;>
    exact absurd hdig (by decide)

theorem pyFloat_render_isSome (v : PFloat) :
    (pyFloat (renderAmount v)).isSome = true := by
  cases v with
  | inf => decide
  | ninf => decide
  | nan => decide
  | fin q =>
    obtain ⟨h1, h2, h3⟩ := renderFin_ne_special q
    show (pyFloat (renderFin q)).isSome = true
    unfold pyFloat
    rw [if_neg h1, if_neg h2, if_neg h3]
    rcases hp : pyParse (renderFin q).data with _ | q'
    · have h0 := renderFin_isSome q
      rw [hp] at h0
      exact Bool.noConfusion h0
    · rfl

theorem pyFloat_normalize_isSome {s : String} (h : normalize_amount s ≠ "") :
    (pyFloat (normalize_amount s)).isSome = true := by
  unfold normalize_amount at h ⊢
  by_cases hs : (s == "") = true
  · rw [if_pos hs] at h
    exact absurd rfl h
  · rw [if_neg hs] at h ⊢
    rcases hp : pyFloat ⟨(removeSub "usd" (removeSub "USD" (removeSub "," s))).data.filter
        (fun c => isDigitC c || c == '.')⟩ with _ | v
    · rw [hp] at h
      exact absurd rfl h
    · exact pyFloat_render_isSome v

theorem pyParse_empty : pyParse ("" : String).data = none := rfl

theorem ratSub_eq (a b : ℚ) : ratSub a b = a - b := by
  have ha : ((a.den : ℚ)) ≠ 0 := by
    exact_mod_cast a.den_nz
  have hb : ((b.den : ℚ)) ≠ 0 := by
    exact_mod_cast b.den_nz
  have hA : ((a.num : ℚ)) = a * (a.den : ℚ) := by
    have h0 := congrArg (fun x : ℚ => x * (a.den : ℚ)) (Rat.num_div_den a)
    simp only at h0
    rw [div_mul_cancel₀ _ ha] at h0
    exact h0
  have hB : ((b.num : ℚ)) = b * (b.den : ℚ) := by
    have h0 := congrArg (fun x : ℚ => x * (b.den : ℚ)) (Rat.num_div_den b)
    simp only at h0
    rw [div_mul_cancel₀ _ hb] at h0
    exact h0
  unfold ratSub
  rw [Rat.mkRat_eq_div]
  push_cast
  field_simp
  rw [hA, hB]
  ring

theorem mkRat_one_hundred : (mkRat 1 100 : ℚ) = 1 / 100 := by
  rw [Rat.mkRat_eq_div]
  norm_num

/-- Claim C7 (counterexample): the claimed rule - `match` exactly when the
absolute difference of the two normalized amounts is strictly below `0.01` -
is violated by the program, because the program compares IEEE binary64
doubles, not the numbers themselves.  On totals `"1000.01"` and `"1000.00"`
the normalized amounts are `100001/100` and `1000`, whose difference is
exactly `1/100` - not strictly below `0.01`, so the claimed rule says
`mismatch` - yet `compare_records` emits the row with status `match`: the
doubles nearest the two amounts differ by `87960930222 * 2 ^ (-43)`, which
is below the double nearest `0.01`. -/
theorem c7_counterexample :
    (compare_records [("total", some "1000.01")] [("total", some "1000.00")]).1
      = [⟨"total", "1000.01", "1000.00", "match"⟩]
    ∧ pyParse (normalize_amount "1000.01").data = some (mkRat 100001 100)
    ∧ pyParse (normalize_amount "1000.00").data = some (mkRat 1000 1)
    ∧ ¬(|ratSub (mkRat 100001 100) (mkRat 1000 1)| < mkRat 1 100)
    ∧ ratSub (mkRat 100001 100) (mkRat 1000 1) = mkRat 100001 100 - mkRat 1000 1
    ∧ (mkRat 1 100 : ℚ) = 1 / 100 := by
  exact ⟨by decide, by decide, by decide, by decide, ratSub_eq _ _,
    mkRat_one_hundred⟩

/-- Claim C7 (amended): in `compare_records`, a row on the `total` field has
status `match` when amount normalization of both resolved values is
non-empty and the absolute difference of the two binary64 doubles denoted by
the normalized strings is below the double `0.01` (IEEE comparison: `false`
on `nan`), status `mismatch` when both normalizations are non-empty and the
double comparison fails, and status `missing` when either amount
normalization is empty (equivalently, when either side fails to parse). -/
theorem c7_amended (inv po : RawRecord) (iv pv st : String)
    (hm : (⟨"total", iv, pv, st⟩ : Row) ∈ (compare_records inv po).1) :
    (∀ a b : PFloat, pyFloat (normalize_amount iv) = some a →
        pyFloat (normalize_amount pv) = some b →
        st = if plt (pabs (psub a b)) double001 then "match" else "mismatch")
    ∧ ((normalize_amount iv = "" ∨ normalize_amount pv = "") → st = "missing") := by
  have hm' : (⟨"total", iv, pv, st⟩ : Row) ∈ compareRows inv po := hm
  rw [mem_compareRows] at hm'
  obtain ⟨f, -, -, heq⟩ := hm'
  have hf : f = "total" := (congrArg Row.field heq).symm
  have hiv : resolve inv f (normalize_record inv) = iv := (congrArg Row.invoice heq).symm
  have hpv : resolve po f (normalize_record po) = pv := (congrArg Row.po heq).symm
  have hst : st = classify "total" iv pv := by
    have := (congrArg Row.status heq)
    simp only at this
    rw [this, hiv, hpv, hf]
  constructor
  · intro a b hpa hpb
    have hni : normalize_amount iv ≠ "" := by
      intro he
      rw [he, show pyFloat "" = none by decide] at hpa
      cases hpa
    have hnp : normalize_amount pv ≠ "" := by
      intro he
      rw [he, show pyFloat "" = none by decide] at hpb
      cases hpb
    rw [hst, classify_total_eq]
    rw [if_pos ⟨hni, hnp⟩, hpa, hpb]
  · intro hnone
    rw [hst, classify_total_eq]
    rcases hnone with hn | hn
    · rw [if_neg (by rintro ⟨h, -⟩; exact h hn)]
    · rw [if_neg (by rintro ⟨-, h⟩; exact h hn)]

/-- Claim C7 (amended, witness): the rule applied to the totals `"100.00"`
and `"100.004"`, whose normalized amounts both denote the double `100`
exactly and therefore match (the spec's tolerance example). -/
theorem c7_amended_witness :
    (⟨"total", "100.00", "100.004", "match"⟩ : Row)
      ∈ (compare_records [("total", some "100.00")]
          [("total", some "100.004")]).1
    ∧ pyFloat (normalize_amount "100.00") = some (PFloat.fin (mkRat 100 1))
    ∧ pyFloat (normalize_amount "100.004") = some (PFloat.fin (mkRat 100 1))
    ∧ ("match" : String) =
        (if plt (pabs (psub (PFloat.fin (mkRat 100 1)) (PFloat.fin (mkRat 100 1))))
            double001 then "match" else "mismatch") := by
  refine ⟨by decide, by decide, by decide, ?_⟩
  exact (c7_amended [("total", some "100.00")] [("total", some "100.004")]
    "100.00" "100.004" "match" (by decide)).1 _ _ (by decide) (by decide)

theorem fieldComparable_total_eq (iv pv : String) :
    fieldComparable "total" iv pv =
      (!(normalize_amount iv == "") && !(normalize_amount pv == "")) := by
  unfold fieldComparable
  rw [if_pos rfl]

theorem fieldComparable_vendor_eq (iv pv : String) :
    fieldComparable "vendor" iv pv =
      (!(normalize_company (lowerStr (clean iv)) == "")
        && !(normalize_company (lowerStr (clean pv)) == "")) := by
  unfold fieldComparable
  rw [if_neg (show ¬ ("vendor" : String) = "total" by decide), if_pos rfl]

theorem fieldComparable_idlike_eq (f iv pv : String)
    (hf : idFields.contains f = true) :
    fieldComparable f iv pv =
      (((idCoreSearch iv).isSome && (idCoreSearch pv).isSome)
        || (!(lowerStr (clean iv) == "") && !(lowerStr (clean pv) == ""))) := by
  have hft : ¬ f = "total" := by
    intro h
    subst h
    exact absurd hf (by decide)
  have hfv : ¬ f = "vendor" := by
    intro h
    subst h
    exact absurd hf (by decide)
  unfold fieldComparable
  rw [if_neg hft, if_neg hfv, if_pos hf]

theorem fieldComparable_generic_eq (f iv pv : String)
    (hft : f ≠ "total") (hfv : f ≠ "vendor")
    (hfid : idFields.contains f = false) :
    fieldComparable f iv pv =
      (!(lowerStr (clean iv) == "") && !(lowerStr (clean pv) == "")) := by
  unfold fieldComparable
  rw [if_neg hft, if_neg hfv, if_neg (by rw [hfid]; exact Bool.false_ne_true)]

theorem fieldEquiv_total_eq (iv pv : String) :
    fieldEquiv "total" iv pv =
      (match pyFloat (normalize_amount iv), pyFloat (normalize_amount pv) with
       | some a, some b => plt (pabs (psub a b)) double001
       | _, _ => false) := by
  unfold fieldEquiv
  rw [if_pos rfl]

theorem fieldEquiv_vendor_eq (iv pv : String) :
    fieldEquiv "vendor" iv pv =
      (genericStatus (normalize_company (lowerStr (clean iv)))
        (normalize_company (lowerStr (clean pv))) == "match") := by
  unfold fieldEquiv
  rw [if_neg (show ¬ ("vendor" : String) = "total" by decide), if_pos rfl]

theorem fieldEquiv_idlike_eq (f iv pv : String)
    (hf : idFields.contains f = true) :
    fieldEquiv f iv pv =
      (match idCoreSearch iv, idCoreSearch pv with
       | some li, some ri => li == ri
       | _, _ => genericStatus (lowerStr (clean iv)) (lowerStr (clean pv)) == "match") := by
  have hft : ¬ f = "total" := by
    intro h
    subst h
    exact absurd hf (by decide)
  have hfv : ¬ f = "vendor" := by
    intro h
    subst h
    exact absurd hf (by decide)
  unfold fieldEquiv
  rw [if_neg hft, if_neg hfv, if_pos hf]

theorem fieldEquiv_generic_eq (f iv pv : String)
    (hft : f ≠ "total") (hfv : f ≠ "vendor")
    (hfid : idFields.contains f = false) :
    fieldEquiv f iv pv =
      (genericStatus (lowerStr (clean iv)) (lowerStr (clean pv)) == "match") := by
  unfold fieldEquiv
  rw [if_neg hft, if_neg hfv, if_neg (by rw [hfid]; exact Bool.false_ne_true)]

theorem digit_not_ws {c : Char} (h : isDigitC c = true) : pyIsWS c = false := by
  by_contra hws
  rw [Bool.not_eq_false] at hws
  unfold pyIsWS at hws
  rcases Bool.or_eq_true_iff.mp hws with h6 | h5
  · rcases Bool.or_eq_true_iff.mp h6 with h4 | h5
    · rcases Bool.or_eq_true_iff.mp h4 with h3 | h5
      · rcases Bool.or_eq_true_iff.mp h3 with h2 | h5
        · rcases Bool.or_eq_true_iff.mp h2 with h1 | h5
          · rw [beq_iff_eq] at h1
            subst h1
            exact absurd h (by decide)
          · rw [beq_iff_eq] at h5
            subst h5
            exact absurd h (by decide)
        · rw [beq_iff_eq] at h5
          subst h5
          exact absurd h (by decide)
      · rw [beq_iff_eq] at h5
        subst h5
        exact absurd h (by decide)
    · rw [beq_iff_eq] at h5
      subst h5
      exact absurd h (by decide)
  · rw [beq_iff_eq] at h5
    subst h5
    exact absurd h (by decide)

theorem idCoreAt_digits {s ds : List Char} (h : idCoreAt s = some ds) :
    ds ≠ [] ∧ ∀ c ∈ ds, isDigitC c = true := by
  unfold idCoreAt at h
  split at h
  · split at h
    · split at h
      · rename_i hlen
        cases h
        constructor
        · intro hnil
          rw [hnil] at hlen
          simp at hlen
        · intro c hc
          exact List.mem_takeWhile_imp hc
      · cases h
    · cases h
  · cases h

theorem idDigitsAt_digits {s ds : List Char} (h : idDigitsAt s = some ds) :
    ds ≠ [] ∧ ∀ c ∈ ds, isDigitC c = true := by
  unfold idDigitsAt at h
  split at h
  · rename_i hlen
    cases h
    constructor
    · intro hnil
      rw [hnil] at hlen
      simp at hlen
    · intro c hc
      exact List.mem_takeWhile_imp hc
  · cases h

theorem idCoreSearchAux_digits :
    ∀ {l ds : List Char}, idCoreSearchAux l = some ds →
      ds ≠ [] ∧ ∀ c ∈ ds, isDigitC c = true := by
  intro l
  induction l with
  | nil => intro ds h; cases h
  | cons c0 rest ih =>
    intro ds h
    unfold idCoreSearchAux at h
    split at h
    · rename_i h1
      cases h
      exact idCoreAt_digits h1
    · split at h
      · rename_i h2
        cases h
        exact idDigitsAt_digits h2
      · exact ih h

theorem idCoreSearch_spec {s : String} {core : String}
    (h : idCoreSearch s = some core) :
    core ≠ "" ∧ ∀ c ∈ core.data, isDigitC c = true := by
  unfold idCoreSearch at h
  rcases hx : idCoreSearchAux s.data with _ | ds
  · rw [hx] at h
    cases h
  · rw [hx] at h
    cases h
    obtain ⟨hne, hdig⟩ := idCoreSearchAux_digits hx
    exact ⟨by rwa [string_ne_empty_iff], hdig⟩

theorem clean_core_ne {core : String} (hne : core ≠ "")
    (hdig : ∀ c ∈ core.data, isDigitC c = true) : clean core ≠ "" := by
  rw [string_ne_empty_iff] at hne
  rcases hd : core.data with _ | ⟨c, t⟩
  · exact absurd hd hne
  · have hc : c ∈ core.data := by
      rw [hd]
      exact List.mem_cons_self _ _
    exact clean_ne_of_mem hc (digit_not_ws (hdig c hc))

/-- The comparator's resolved values are stripped, so a non-empty resolved
value still has content after whitespace-collapsing: `_clean` of a non-empty
resolved value is never empty. -/
theorem resolve_clean_ne (rec : RawRecord) (f : String) (n : Dict)
    (h : resolve rec f n ≠ "") : clean (resolve rec f n) ≠ "" := by
  unfold resolve at h ⊢
  by_cases h1 : strip (dget n f) ≠ ""
  · rw [if_pos h1] at h ⊢
    exact strip_clean_ne h1
  · rw [if_neg h1] at h ⊢
    revert h
    cases hl : rec.lookup f with
    | none =>
      intro h
      exact absurd rfl h
    | some ov =>
      cases ov with
      | none =>
        intro h
        exact absurd rfl h
      | some rv =>
        intro h
        change (if strip rv = "" then ""
          else if f = "vendor" then (if labelOnly (strip rv) = true then "" else strip rv)
          else if f = "po_number" then
            (match idCoreSearch (strip rv) with
             | some core => core
             | none => "")
          else strip rv) ≠ "" at h
        change clean (if strip rv = "" then ""
          else if f = "vendor" then (if labelOnly (strip rv) = true then "" else strip rv)
          else if f = "po_number" then
            (match idCoreSearch (strip rv) with
             | some core => core
             | none => "")
          else strip rv) ≠ ""
        by_cases hs : strip rv = ""
        · rw [if_pos hs] at h
          exact absurd rfl h
        · rw [if_neg hs] at h ⊢
          by_cases hv : f = "vendor"
          · rw [if_pos hv] at h ⊢
            by_cases hlab : labelOnly (strip rv) = true
            · rw [if_pos hlab] at h
              exact absurd rfl h
            · rw [if_neg hlab] at h ⊢
              exact strip_clean_ne hs
          · rw [if_neg hv] at h ⊢
            by_cases hp : f = "po_number"
            · rw [if_pos hp] at h ⊢
              revert h
              cases hc : idCoreSearch (strip rv) with
              | none =>
                intro h
                exact absurd rfl h
              | some core =>
                intro h
                obtain ⟨hcne, hcdig⟩ := idCoreSearch_spec hc
                exact clean_core_ne hcne hcdig
            · rw [if_neg hp] at h ⊢
              exact strip_clean_ne hs

theorem rowInvariant_of_cases {f iv pv st : String}
    (hne : ¬(iv = "" ∧ pv = ""))
    (h : (st = "match" ∧ iv ≠ "" ∧ pv ≠ "" ∧ fieldEquiv f iv pv = true)
       ∨ (st = "mismatch" ∧ iv ≠ "" ∧ pv ≠ "" ∧ fieldEquiv f iv pv = false)
       ∨ (st = "missing" ∧ ((iv = "" ∧ pv ≠ "") ∨ (iv ≠ "" ∧ pv = "")
            ∨ fieldComparable f iv pv = false))) :
    rowInvariant ⟨f, iv, pv, st⟩ := by
  unfold rowInvariant
  rcases h with ⟨hs, h1, h2, h3⟩ | ⟨hs, h1, h2, h3⟩ | ⟨hs, h3⟩
  · subst hs
    exact ⟨hne, fun _ => ⟨h1, h2, h3⟩,
      fun hc => absurd hc (show ("match" : String) ≠ "mismatch" by decide),
      fun hc => absurd hc (show ("match" : String) ≠ "missing" by decide)⟩
  · subst hs
    exact ⟨hne,
      fun hc => absurd hc (show ("mismatch" : String) ≠ "match" by decide),
      fun _ => ⟨h1, h2, h3⟩,
      fun hc => absurd hc (show ("mismatch" : String) ≠ "missing" by decide)⟩
  · subst hs
    exact ⟨hne,
      fun hc => absurd hc (show ("missing" : String) ≠ "match" by decide),
      fun hc => absurd hc (show ("missing" : String) ≠ "mismatch" by decide),
      fun _ => h3⟩

theorem generic_cases (lv rv : String) :
    (genericStatus lv rv = "match" ∧ lv ≠ "" ∧ rv ≠ ""
      ∧ (genericStatus lv rv == "match") = true)
    ∨ (genericStatus lv rv = "mismatch" ∧ lv ≠ "" ∧ rv ≠ ""
      ∧ (genericStatus lv rv == "match") = false)
    ∨ (genericStatus lv rv = "missing" ∧ (lv = "" ∨ rv = "")) := by
  unfold genericStatus
  by_cases h1 : lv ≠ "" ∧ rv ≠ "" ∧ lv = rv
  · rw [if_pos h1]
    exact Or.inl ⟨rfl, h1.1, h1.2.1, by decide⟩
  · rw [if_neg h1]
    by_cases h2 : lv = "" ∨ rv = ""
    · rw [if_pos h2]
      exact Or.inr (Or.inr ⟨rfl, h2⟩)
    · rw [if_neg h2]
      push_neg at h2
      exact Or.inr (Or.inl ⟨rfl, h2.1, h2.2, by decide⟩)

theorem total_status_cases (iv pv : String) :
    (classify "total" iv pv = "match" ∧ normalize_amount iv ≠ ""
      ∧ normalize_amount pv ≠ "" ∧ fieldEquiv "total" iv pv = true)
    ∨ (classify "total" iv pv = "mismatch" ∧ normalize_amount iv ≠ ""
      ∧ normalize_amount pv ≠ "" ∧ fieldEquiv "total" iv pv = false)
    ∨ (classify "total" iv pv = "missing"
      ∧ fieldComparable "total" iv pv = false) := by
  rw [classify_total_eq, fieldEquiv_total_eq, fieldComparable_total_eq]
  by_cases hna : normalize_amount iv ≠ "" ∧ normalize_amount pv ≠ ""
  · rw [if_pos hna]
    obtain ⟨a, hpa⟩ := Option.isSome_iff_exists.mp (pyFloat_normalize_isSome hna.1)
    obtain ⟨b, hpb⟩ := Option.isSome_iff_exists.mp (pyFloat_normalize_isSome hna.2)
    rw [hpa, hpb]
    by_cases hlt : plt (pabs (psub a b)) double001 = true
    · refine Or.inl ⟨?_, hna.1, hna.2, hlt⟩
      show (if plt (pabs (psub a b)) double001 = true then "match" else "mismatch")
        = "match"
      rw [if_pos hlt]
    · refine Or.inr (Or.inl ⟨?_, hna.1, hna.2, Bool.eq_false_iff.mpr hlt⟩)
      show (if plt (pabs (psub a b)) double001 = true then "match" else "mismatch")
        = "mismatch"
      rw [if_neg hlt]
  · rw [if_neg hna]
    refine Or.inr (Or.inr ⟨rfl, ?_⟩)
    rcases not_and_or.mp hna with h | h
    · push_neg at h
      rw [h]
      simp
    · push_neg at h
      rw [h]
      simp

theorem vendor_shape_cases (iv pv : String) :
    (genericStatus (normalize_company (lowerStr (clean iv)))
        (normalize_company (lowerStr (clean pv))) = "match"
      ∧ iv ≠ "" ∧ pv ≠ ""
      ∧ (genericStatus (normalize_company (lowerStr (clean iv)))
          (normalize_company (lowerStr (clean pv))) == "match") = true)
    ∨ (genericStatus (normalize_company (lowerStr (clean iv)))
        (normalize_company (lowerStr (clean pv))) = "mismatch"
      ∧ iv ≠ "" ∧ pv ≠ ""
      ∧ (genericStatus (normalize_company (lowerStr (clean iv)))
          (normalize_company (lowerStr (clean pv))) == "match") = false)
    ∨ (genericStatus (normalize_company (lowerStr (clean iv)))
        (normalize_company (lowerStr (clean pv))) = "missing"
      ∧ ((iv = "" ∧ pv ≠ "") ∨ (iv ≠ "" ∧ pv = "")
        ∨ (!(normalize_company (lowerStr (clean iv)) == "")
            && !(normalize_company (lowerStr (clean pv)) == "")) = false)) := by
  rcases generic_cases (normalize_company (lowerStr (clean iv)))
      (normalize_company (lowerStr (clean pv))) with
    ⟨hs, h1, h2, h3⟩ | ⟨hs, h1, h2, h3⟩ | ⟨hs, hor⟩
  · exact Or.inl ⟨hs, fun h => h1 (by rw [h]; rfl),
      fun h => h2 (by rw [h]; rfl), h3⟩
  · exact Or.inr (Or.inl ⟨hs, fun h => h1 (by rw [h]; rfl),
      fun h => h2 (by rw [h]; rfl), h3⟩)
  · refine Or.inr (Or.inr ⟨hs, Or.inr (Or.inr ?_)⟩)
    rcases hor with h | h <;> rw [h] <;> simp

theorem generic_shape_cases (iv pv : String)
    (hivc : lowerStr (clean iv) = "" → iv = "")
    (hpvc : lowerStr (clean pv) = "" → pv = "")
    (hne : ¬(iv = "" ∧ pv = "")) :
    (genericStatus (lowerStr (clean iv)) (lowerStr (clean pv)) = "match"
      ∧ iv ≠ "" ∧ pv ≠ ""
      ∧ (genericStatus (lowerStr (clean iv)) (lowerStr (clean pv)) == "match") = true)
    ∨ (genericStatus (lowerStr (clean iv)) (lowerStr (clean pv)) = "mismatch"
      ∧ iv ≠ "" ∧ pv ≠ ""
      ∧ (genericStatus (lowerStr (clean iv)) (lowerStr (clean pv)) == "match") = false)
    ∨ (genericStatus (lowerStr (clean iv)) (lowerStr (clean pv)) = "missing"
      ∧ ((iv = "" ∧ pv ≠ "") ∨ (iv ≠ "" ∧ pv = "")
        ∨ (!(lowerStr (clean iv) == "") && !(lowerStr (clean pv) == "")) = false)) := by
  rcases generic_cases (lowerStr (clean iv)) (lowerStr (clean pv)) with
    ⟨hs, h1, h2, h3⟩ | ⟨hs, h1, h2, h3⟩ | ⟨hs, hor⟩
  · exact Or.inl ⟨hs, fun h => h1 (by rw [h]; rfl),
      fun h => h2 (by rw [h]; rfl), h3⟩
  · exact Or.inr (Or.inl ⟨hs, fun h => h1 (by rw [h]; rfl),
      fun h => h2 (by rw [h]; rfl), h3⟩)
  · refine Or.inr (Or.inr ⟨hs, ?_⟩)
    rcases hor with h | h
    · have hiv0 : iv = "" := hivc h
      exact Or.inl ⟨hiv0, fun hp => hne ⟨hiv0, hp⟩⟩
    · have hpv0 : pv = "" := hpvc h
      by_cases hiv : iv = ""
      · exact absurd ⟨hiv, hpv0⟩ hne
      · exact Or.inr (Or.inl ⟨hiv, hpv0⟩)

theorem idlike_core_cases {C : Prop} (iv pv li ri : String)
    (hci : idCoreSearch iv = some li) (hcp : idCoreSearch pv = some ri) :
    ((if li = ri then "match" else "mismatch") = "match" ∧ iv ≠ "" ∧ pv ≠ ""
      ∧ (li == ri) = true)
    ∨ ((if li = ri then "match" else "mismatch") = "mismatch" ∧ iv ≠ "" ∧ pv ≠ ""
      ∧ (li == ri) = false)
    ∨ ((if li = ri then "match" else "mismatch") = "missing" ∧ C) := by
  have hiv : iv ≠ "" := by
    intro h
    rw [h] at hci
    exact Option.noConfusion hci
  have hpv : pv ≠ "" := by
    intro h
    rw [h] at hcp
    exact Option.noConfusion hcp
  by_cases heq : li = ri
  · exact Or.inl ⟨by rw [if_pos heq], hiv, hpv, by simp [heq]⟩
  · exact Or.inr (Or.inl ⟨by rw [if_neg heq], hiv, hpv, by simp [heq]⟩)

theorem classify_invariant (f iv pv : String)
    (hivc : lowerStr (clean iv) = "" → iv = "")
    (hpvc : lowerStr (clean pv) = "" → pv = "")
    (hne : ¬(iv = "" ∧ pv = "")) :
    rowInvariant ⟨f, iv, pv, classify f iv pv⟩ := by
  apply rowInvariant_of_cases hne
  by_cases hft : f = "total"
  · subst hft
    rcases total_status_cases iv pv with ⟨hs, h1, h2, h3⟩ | ⟨hs, h1, h2, h3⟩ | ⟨hs, h3⟩
    · exact Or.inl ⟨hs, fun h => h1 (by rw [h]; rfl),
        fun h => h2 (by rw [h]; rfl), h3⟩
    · exact Or.inr (Or.inl ⟨hs, fun h => h1 (by rw [h]; rfl),
        fun h => h2 (by rw [h]; rfl), h3⟩)
    · exact Or.inr (Or.inr ⟨hs, Or.inr (Or.inr h3)⟩)
  · by_cases hfv : f = "vendor"
    · subst hfv
      rw [classify_vendor_eq, fieldEquiv_vendor_eq, fieldComparable_vendor_eq]
      exact vendor_shape_cases iv pv
    · by_cases hfid : idFields.contains f = true
      · rw [classify_idlike_eq _ _ _ hfid, fieldEquiv_idlike_eq _ _ _ hfid,
          fieldComparable_idlike_eq _ _ _ hfid]
        cases hci : idCoreSearch iv with
        | some li =>
          cases hcp : idCoreSearch pv with
          | some ri => exact idlike_core_cases iv pv li ri hci hcp
          | none => exact generic_shape_cases iv pv hivc hpvc hne
        | none =>
          cases hcp : idCoreSearch pv with
          | some ri => exact generic_shape_cases iv pv hivc hpvc hne
          | none => exact generic_shape_cases iv pv hivc hpvc hne
      · rw [classify_generic_eq _ _ _ hft hfv
            (by rwa [Bool.not_eq_true] at hfid),
          fieldEquiv_generic_eq _ _ _ hft hfv
            (by rwa [Bool.not_eq_true] at hfid),
          fieldComparable_generic_eq _ _ _ hft hfv
            (by rwa [Bool.not_eq_true] at hfid)]
        exact generic_shape_cases iv pv hivc hpvc hne

/-- Claim C8 (confirmed): every row emitted by `compare_records` satisfies
the row invariant: no row has both resolved values empty; a `match` row has
both values non-empty and equivalent under the field's comparison rule; a
`mismatch` row has both values non-empty and not equivalent; a `missing`
row has exactly one side empty or incomparable sides. -/
theorem c8_row_invariant (inv po : RawRecord) (r : Row)
    (hm : r ∈ (compare_records inv po).1) : rowInvariant r := by
  have hm' : r ∈ compareRows inv po := hm
  rw [mem_compareRows] at hm'
  obtain ⟨f, -, hne, rfl⟩ := hm'
  apply classify_invariant
  · intro h
    by_contra hiv
    exact lowerStr_ne_empty.mpr (resolve_clean_ne inv f _ hiv) h
  · intro h
    by_contra hpv
    exact lowerStr_ne_empty.mpr (resolve_clean_ne po f _ hpv) h
  · exact hne

/-- Claim C8 (witness): the invariant holds at the `missing` row produced
for a currency present only on the invoice side (the spec's missing-field
policy example). -/
theorem c8_witness : rowInvariant ⟨"currency", "USD", "", "missing"⟩ :=
  c8_row_invariant [("currency", some "USD")] []
    ⟨"currency", "USD", "", "missing"⟩ (by decide)

theorem resolve_eq_resolveSpec (rec : RawRecord) (f : String) (n : Dict) :
    resolve rec f n = resolveSpec rec f n := by
  unfold resolve resolveSpec
  by_cases h1 : strip (dget n f) ≠ ""
  · rw [if_pos h1, if_pos h1]
  · rw [if_neg h1, if_neg h1]
    cases hl : rec.lookup f with
    | none =>
      have hra : rawAt rec f = "" := by
        unfold rawAt
        rw [hl]
      rw [hra]
      show ("" : String) = _
      have hstrip : strip "" = "" := rfl
      rw [hstrip]
      split_ifs <;> decide
    | some ov =>
      cases ov with
      | none =>
        have hra : rawAt rec f = "" := by
          unfold rawAt
          rw [hl]
        rw [hra]
        show ("" : String) = _
        have hstrip : strip "" = "" := rfl
        rw [hstrip]
        split_ifs <;> decide
      | some rv =>
        have hra : rawAt rec f = rv := by
          unfold rawAt
          rw [hl]
        rw [hra]
        show (if strip rv = "" then ""
              else if f = "vendor" then
                (if labelOnly (strip rv) = true then "" else strip rv)
              else if f = "po_number" then
                (match idCoreSearch (strip rv) with
                 | some core => core
                 | none => "")
              else strip rv) = _
        by_cases hs : strip rv = ""
        · rw [if_pos hs, hs]
          split_ifs <;> decide
        · rw [if_neg hs]
          by_cases hv : f = "vendor"
          · rw [if_pos hv, if_pos hv]
          · rw [if_neg hv, if_neg hv]
            by_cases hp : f = "po_number"
            · rw [if_pos hp, if_pos hp]
              cases idCoreSearch (strip rv) <;> rfl
            · rw [if_neg hp, if_neg hp]

/-- Claim C9 (counterexample): the resolved value is not the canonical-record
value itself but its trimmed form: for the record `{"total": " 5 "}` the
canonical total is `" 5 "` (non-empty) yet `_resolve` returns `"5"`; and
candidate keys are trimmed as well as lower-cased: the key `" Total "`
contributes the candidate `"total"` (merging with the canonical field), not
`" total "`. -/
theorem c9_counterexample :
    dget (normalize_record [("total", some " 5 ")]) "total" = " 5 "
    ∧ resolve [("total", some " 5 ")] "total"
        (normalize_record [("total", some " 5 ")]) = "5"
    ∧ ("5" : String) ≠ " 5 "
    ∧ candidateKeys [(" Total ", some "1")] [] = FIELDS
    ∧ (" total " : String) ∉ candidateKeys [(" Total ", some "1")] [] := by
  refine ⟨by decide, by decide, by decide, by decide, by decide⟩

/-- Claim C9 (amended): the comparator's candidate field list is exactly the
canonical fields together with every lower-cased **trimmed** non-empty,
non-reserved key of either raw record; and each side's value resolves to the
**trimmed** canonical-record value when that trimmed value is non-empty,
otherwise to the raw value at that exact key (string-coerced, trimmed, with
the vendor label-only discard and the po_number identifier-core sanitation);
hence every extra non-reserved raw key present in either record participates
in comparison. -/
theorem c9_amended :
    (∀ (inv po : RawRecord) (k : String),
        k ∈ sortStrings (candidateKeys inv po) ↔
          k ∈ FIELDS ∨ ∃ kv, (kv ∈ inv ∨ kv ∈ po)
            ∧ lowerStr (strip kv.1) = k ∧ k ≠ "" ∧ k ≠ "_raw")
    ∧ (∀ (rec : RawRecord) (f : String) (n : Dict),
        resolve rec f n = resolveSpec rec f n) := by
  constructor
  · intro inv po k
    rw [mem_sortStrings]
    exact mem_candidateKeys
  · exact resolve_eq_resolveSpec

end InvoiceVerify
